import Mathlib

/-!
# Verification of the diameter-of-binary-tree visualizer core

Shallow embedding of the repository's core functions:

* `buildTreeFromArray` (src/src/utils/treeUtils.ts, lines 32-62): level-order
  queue construction of a plain binary tree from a `(number | null)[]` array.
* `convertToD3Tree` (src/src/utils/treeUtils.ts, lines 83-156): decoration of
  the plain tree with path ids, depths and visual flags, optionally inserting
  `isNull` placeholder nodes for absent children of non-leaf nodes.
* `generateAlgorithmSteps` / `processNode` (src/unnamed/part_006,
  lines 110-381): the step generator producing the replay timeline.

TypeScript `null` for a tree argument is modelled by a dedicated `nil`
constructor.  JavaScript numbers occurring here are integers (node values,
validated to [-100,100]) or non-negative depth/diameter counters; they are
modelled by `Int` and `Nat` respectively.  The `parent` back-reference of
`D3TreeNode` is not representable in an inductive value; the only place the
embedded functions read it is the placeholder condition
`includeNullNodes && parent && !parent.isNull` inside `convertToD3Tree`,
which receives the relevant information (`parent` existence and its `isNull`
flag) as the extra parameter `parentIsNull : Option Bool`.
-/

/-- `TreeNode` (src/src/types/index.ts): plain binary tree node; `nil`
models the TypeScript `null`. -/
inductive TreeNode where
  | nil : TreeNode
  | node (val : Int) (left right : TreeNode) : TreeNode
  deriving DecidableEq, Repr

/-- `D3TreeNode` (src/src/utils/treeUtils.ts): decorated node with id,
coordinates, depth and visual flags; `nil` models the TypeScript `null`.
The `parent` back-reference is dropped (see module comment). -/
inductive D3TreeNode where
  | nil : D3TreeNode
  | node (id : String) (val : Option Int) (x y : Int)
      (left right : D3TreeNode) (depth : Nat)
      (highlighted isOnDiameterPath isNull : Bool) : D3TreeNode
  deriving DecidableEq, Repr

/-- `AnimationType` (src/unnamed/part_005): classification of a step's
transition. -/
inductive AnimationType where
  | none
  | recursionEnter
  | recursionExit
  | returnValue
  | compare
  | updateDiameter
  | paramPass
  deriving DecidableEq, Repr

/-- The `value` field of `animationData` holds either a string (e.g.
`node=5`, `null`) or a number in the source; modelled as a sum. -/
inductive AnimValue where
  | str (s : String)
  | num (n : Int)
  deriving DecidableEq, Repr

/-- `animationData` (src/unnamed/part_005): kind-specific payload with all
fields optional. -/
structure AnimationData where
  fromNodeId : Option String
  toNodeId : Option String
  value : Option AnimValue
  compareLeft : Option Nat
  compareRight : Option Nat
  compareResult : Option String
  deriving DecidableEq, Repr

/-- `VariableState` (src/unnamed/part_005). -/
structure VariableState where
  name : String
  value : String
  line : Nat
  deriving DecidableEq, Repr

/-- `AlgorithmStep` (src/unnamed/part_005).  The source field `variables`
is named `varList` here because `variables` is a reserved word in Lean. -/
structure AlgorithmStep where
  stepIndex : Nat
  description : String
  currentNodeId : Option String
  highlightedNodes : List String
  highlightedEdges : List (String × String)
  diameterPath : List String
  currentDiameter : Nat
  varList : List VariableState
  codeLineNumber : Nat
  animationType : AnimationType
  animationData : Option AnimationData
  leftDepth : Option Nat
  rightDepth : Option Nat
  deriving DecidableEq, Repr

instance : Inhabited AlgorithmStep :=
  ⟨⟨0, "", Option.none, [], [], [], 0, [], 0, AnimationType.none, Option.none,
    Option.none, Option.none⟩⟩

/-- `createStep` (src/unnamed/part_006, lines 61-91): assembles a step
record from its thirteen arguments. -/
def createStep (stepIndex : Nat) (description : String)
    (currentNodeId : Option String) (highlightedNodes : List String)
    (highlightedEdges : List (String × String)) (diameterPath : List String)
    (currentDiameter : Nat) (varList : List VariableState)
    (codeLineNumber : Nat) (animationType : AnimationType)
    (animationData : Option AnimationData)
    (leftDepth rightDepth : Option Nat) : AlgorithmStep :=
  ⟨stepIndex, description, currentNodeId, highlightedNodes, highlightedEdges,
    diameterPath, currentDiameter, varList, codeLineNumber, animationType,
    animationData, leftDepth, rightDepth⟩

/-- JavaScript `String(node.val)` where `val` is a number or `null`. -/
def showVal : Option Int → String
  | Option.none => "null"
  | some n => toString n

/-- JavaScript `parentId || undefined` on a `string | null` value: both
`null` and the falsy empty string collapse to `undefined`. -/
def orUndefined : Option String → Option String
  | Option.none => Option.none
  | some s => if s = "" then Option.none else some s

/-- `node.left?.id`: id of a possibly absent node. -/
def D3TreeNode.optId : D3TreeNode → Option String
  | .nil => Option.none
  | .node id _ _ _ _ _ _ _ _ _ => some id

/-- `node.left ? [[node.id, node.left.id]] : []`: highlighted edge into a
child when it exists. -/
def edgeList (id : String) : D3TreeNode → List (String × String)
  | .nil => []
  | .node cid _ _ _ _ _ _ _ _ _ => [(id, cid)]

/-- Dispatch payload value: ``node=${child.val}`` when the child exists,
the string `'null'` otherwise. -/
def dispatchValue : D3TreeNode → AnimValue
  | .nil => .str "null"
  | .node _ v _ _ _ _ _ _ _ _ => .str ("node=" ++ showVal v)

/-- The generator's mutable closure state in `generateAlgorithmSteps`
(src/unnamed/part_006, lines 111-114): the accumulated `steps` array, the
`stepIndex` counter, `globalDiameter` and the `diameterPath` array. -/
structure GenState where
  steps : List AlgorithmStep
  stepIndex : Nat
  globalDiameter : Nat
  diameterPath : List String
  deriving Repr

/-- `steps.push(createStep(stepIndex++, ...))`: append a step and bump the
counter. -/
def pushStep (st : GenState) (s : AlgorithmStep) : GenState :=
  { st with steps := st.steps ++ [s], stepIndex := st.stepIndex + 1 }

/-! ### The individual `steps.push(createStep(...))` sites of part_006

One definition per push site, each taking exactly the data the source reads
at that point (`stepIndex`, the ids/values in scope, the current
`diameterPath` copy and `globalDiameter`). -/

/-- part_006 lines 173-184: absent-node base case step. -/
def emptyNodeStep (idx : Nat) (path : List String) (parentId : Option String)
    (dPath : List String) (gDia : Nat) : AlgorithmStep :=
  createStep idx "节点为空，返回深度0" Option.none path [] dPath gDia
    [⟨"diameter", toString gDia, 2⟩, ⟨"return", "0", 11⟩] 10
    .returnValue
    (some ⟨orUndefined parentId, Option.none, some (.num 0), Option.none,
      Option.none, Option.none⟩)
    Option.none Option.none

/-- part_006 lines 192-203: recursion-enter step. -/
def enterStep (idx : Nat) (id : String) (val : Option Int)
    (currentPath : List String) (dPath : List String) (gDia : Nat) :
    AlgorithmStep :=
  createStep idx ("📥 递归进入节点 " ++ showVal val) (some id) currentPath []
    dPath gDia
    [⟨"diameter", toString gDia, 2⟩, ⟨"node.val", showVal val, 9⟩] 9
    .recursionEnter
    (some ⟨Option.none, some id, Option.map AnimValue.num val, Option.none,
      Option.none, Option.none⟩)
    Option.none Option.none

/-- part_006 lines 207-220: left-child dispatch step (emitted whether or
not the left child exists; payload value is `'null'` when absent). -/
def leftDispatchStep (idx : Nat) (id : String) (val : Option Int)
    (left : D3TreeNode) (currentPath : List String) (dPath : List String)
    (gDia : Nat) : AlgorithmStep :=
  createStep idx "⬇️ 递归调用depth(node.left)，进入左子树" (some id) currentPath
    (edgeList id left) dPath gDia
    [⟨"diameter", toString gDia, 2⟩, ⟨"node.val", showVal val, 9⟩] 13
    .paramPass
    (some ⟨some id, left.optId, some (dispatchValue left), Option.none,
      Option.none, Option.none⟩)
    Option.none Option.none

/-- part_006 lines 226-240: left-subtree return-value step. -/
def leftReturnStep (idx : Nat) (id : String) (val : Option Int)
    (left : D3TreeNode) (leftDepth : Nat) (currentPath : List String)
    (dPath : List String) (gDia : Nat) : AlgorithmStep :=
  createStep idx ("⬆️ 左子树返回深度 " ++ toString leftDepth) (some id)
    currentPath (edgeList id left) dPath gDia
    [⟨"diameter", toString gDia, 2⟩, ⟨"node.val", showVal val, 9⟩,
      ⟨"leftDepth", toString leftDepth, 13⟩] 13
    .returnValue
    (some ⟨left.optId, some id, some (.num leftDepth), Option.none,
      Option.none, Option.none⟩)
    Option.none Option.none

/-- part_006 lines 244-258: right-child dispatch step (emitted whether or
not the right child exists). -/
def rightDispatchStep (idx : Nat) (id : String) (val : Option Int)
    (right : D3TreeNode) (leftDepth : Nat) (currentPath : List String)
    (dPath : List String) (gDia : Nat) : AlgorithmStep :=
  createStep idx "⬇️ 递归调用depth(node.right)，进入右子树" (some id) currentPath
    (edgeList id right) dPath gDia
    [⟨"diameter", toString gDia, 2⟩, ⟨"node.val", showVal val, 9⟩,
      ⟨"leftDepth", toString leftDepth, 13⟩] 14
    .paramPass
    (some ⟨some id, right.optId, some (dispatchValue right), Option.none,
      Option.none, Option.none⟩)
    Option.none Option.none

/-- part_006 lines 264-279: right-subtree return-value step. -/
def rightReturnStep (idx : Nat) (id : String) (val : Option Int)
    (right : D3TreeNode) (leftDepth rightDepth : Nat)
    (currentPath : List String) (dPath : List String) (gDia : Nat) :
    AlgorithmStep :=
  createStep idx ("⬆️ 右子树返回深度 " ++ toString rightDepth) (some id)
    currentPath (edgeList id right) dPath gDia
    [⟨"diameter", toString gDia, 2⟩, ⟨"node.val", showVal val, 9⟩,
      ⟨"leftDepth", toString leftDepth, 13⟩,
      ⟨"rightDepth", toString rightDepth, 14⟩] 14
    .returnValue
    (some ⟨right.optId, some id, some (.num rightDepth), Option.none,
      Option.none, Option.none⟩)
    Option.none Option.none

/-- part_006 lines 288-299: sum-vs-best compare step; `gDia` is the
`globalDiameter` before any update. -/
def sumCompareStep (idx : Nat) (id : String) (leftDepth rightDepth : Nat)
    (currentPath : List String) (dPath : List String) (gDia : Nat) :
    AlgorithmStep :=
  createStep idx
    ("🔄 比较: leftDepth(" ++ toString leftDepth ++ ") + rightDepth(" ++
      toString rightDepth ++ ") = " ++ toString (leftDepth + rightDepth) ++
      " vs diameter(" ++ toString gDia ++ ")")
    (some id) currentPath [] dPath gDia
    [⟨"diameter", toString gDia, 2⟩,
      ⟨"leftDepth + rightDepth", toString (leftDepth + rightDepth), 16⟩] 16
    .compare
    (some ⟨Option.none, Option.none, Option.none,
      some (leftDepth + rightDepth), some gDia,
      some (if leftDepth + rightDepth > gDia then ">" else "≤")⟩)
    Option.none Option.none

/-- part_006 lines 309-326: diameter-update step; `oldDia` is the diameter
before the update, `gDia` the (possibly just-updated) one. -/
def updateDiameterStep (idx : Nat) (id : String) (val : Option Int)
    (leftDepth rightDepth oldDia : Nat) (shouldUpdate : Bool)
    (currentPath : List String) (dPath : List String) (gDia : Nat) :
    AlgorithmStep :=
  createStep idx
    (if shouldUpdate then
      "✅ 更新直径: " ++ toString oldDia ++ " → " ++ toString gDia
    else "⏸️ 直径保持不变: " ++ toString gDia)
    (some id) currentPath [] dPath gDia
    [⟨"diameter", toString gDia, 2⟩, ⟨"node.val", showVal val, 9⟩,
      ⟨"leftDepth", toString leftDepth, 13⟩,
      ⟨"rightDepth", toString rightDepth, 14⟩] 16
    .updateDiameter
    (some ⟨Option.none, Option.none, some (.num gDia), Option.none,
      Option.none, Option.none⟩)
    (some leftDepth) (some rightDepth)

/-- part_006 lines 332-344: depth-computation compare step. -/
def depthCompareStep (idx : Nat) (id : String) (leftDepth rightDepth : Nat)
    (currentPath : List String) (dPath : List String) (gDia : Nat) :
    AlgorithmStep :=
  createStep idx
    ("🔢 计算返回值: max(" ++ toString leftDepth ++ ", " ++
      toString rightDepth ++ ") + 1 = " ++
      toString (max leftDepth rightDepth + 1))
    (some id) currentPath [] dPath gDia
    [⟨"diameter", toString gDia, 2⟩,
      ⟨"max(leftDepth, rightDepth)", toString (max leftDepth rightDepth), 18⟩,
      ⟨"return", toString (max leftDepth rightDepth + 1), 18⟩] 18
    .compare
    (some ⟨Option.none, Option.none, Option.none, some leftDepth,
      some rightDepth, some ("max=" ++ toString (max leftDepth rightDepth))⟩)
    Option.none Option.none

/-- part_006 lines 348-359: recursion-exit step. -/
def exitStep (idx : Nat) (id : String) (val : Option Int)
    (leftDepth rightDepth : Nat) (parentId : Option String)
    (currentPath : List String) (dPath : List String) (gDia : Nat) :
    AlgorithmStep :=
  createStep idx
    ("📤 递归退出节点 " ++ showVal val ++ "，返回深度 " ++
      toString (max leftDepth rightDepth + 1))
    (some id) currentPath [] dPath gDia
    [⟨"diameter", toString gDia, 2⟩,
      ⟨"return", toString (max leftDepth rightDepth + 1), 18⟩] 18
    .recursionExit
    (some ⟨some id, orUndefined parentId,
      some (.num (max leftDepth rightDepth + 1)), Option.none, Option.none,
      Option.none⟩)
    Option.none Option.none

/-- part_006 lines 118-124: initialization step. -/
def initStep : AlgorithmStep :=
  createStep 0 "开始执行算法，初始化diameter = 0" Option.none [] [] [] 0
    [⟨"diameter", "0", 2⟩] 2 .none Option.none Option.none Option.none

/-- part_006 lines 129-135: absent-root terminal step. -/
def emptyRootStep (idx : Nat) : AlgorithmStep :=
  createStep idx "根节点为空，返回直径0" Option.none [] [] [] 0
    [⟨"diameter", "0", 2⟩] 5 .none Option.none Option.none Option.none

/-- part_006 lines 141-149: root dispatch step. -/
def rootDispatchStep (idx : Nat) (id : String) (val : Option Int) :
    AlgorithmStep :=
  createStep idx "调用depth(root)，传递根节点参数" (some id) [id] [] [] 0
    [⟨"diameter", "0", 2⟩] 4
    .paramPass
    (some ⟨Option.none, some id, some (.str ("node=" ++ showVal val)),
      Option.none, Option.none, Option.none⟩)
    Option.none Option.none

/-- part_006 lines 369-378: terminal step. -/
def finalStep (idx : Nat) (dPath : List String) (gDia : Nat) :
    AlgorithmStep :=
  createStep idx ("🎉 算法执行完毕，二叉树的直径为 " ++ toString gDia)
    Option.none [] [] dPath gDia
    [⟨"diameter", toString gDia, 2⟩, ⟨"return", toString gDia, 5⟩] 5
    .none Option.none Option.none Option.none

/-- `processNode` (src/unnamed/part_006, lines 169-362): simulated
execution of `depth()` over the decorated tree, threading the generator
state explicitly.  Returns the depth of the subtree together with the
updated state.  All mutable variables of the source (`steps`, `stepIndex`,
`globalDiameter`, `diameterPath`) live in `GenState`; `[...diameterPath]`
copies are value reads of `st.diameterPath`. -/
def processNode : D3TreeNode → List String → Option String → GenState →
    Nat × GenState
  | .nil, path, parentId, st =>
    (0, pushStep st
      (emptyNodeStep st.stepIndex path parentId st.diameterPath
        st.globalDiameter))
  | .node id val _x _y l r _d _h _p _n, path, parentId, st =>
    let currentPath := path ++ [id]
    let st1 := pushStep st
      (enterStep st.stepIndex id val currentPath st.diameterPath
        st.globalDiameter)
    let st2 := pushStep st1
      (leftDispatchStep st1.stepIndex id val l currentPath st1.diameterPath
        st1.globalDiameter)
    match processNode l currentPath (some id) st2 with
    | (leftDepth, st3) =>
      let st4 := pushStep st3
        (leftReturnStep st3.stepIndex id val l leftDepth currentPath
          st3.diameterPath st3.globalDiameter)
      let st5 := pushStep st4
        (rightDispatchStep st4.stepIndex id val r leftDepth currentPath
          st4.diameterPath st4.globalDiameter)
      match processNode r currentPath (some id) st5 with
      | (rightDepth, st6) =>
        let st7 := pushStep st6
          (rightReturnStep st6.stepIndex id val r leftDepth rightDepth
            currentPath st6.diameterPath st6.globalDiameter)
        let st8 := pushStep st7
          (sumCompareStep st7.stepIndex id leftDepth rightDepth currentPath
            st7.diameterPath st7.globalDiameter)
        let st9 :=
          if leftDepth + rightDepth > st8.globalDiameter then
            { st8 with
              globalDiameter := leftDepth + rightDepth
              diameterPath := [id] }
          else st8
        let st10 := pushStep st9
          (updateDiameterStep st9.stepIndex id val leftDepth rightDepth
            st8.globalDiameter
            (decide (leftDepth + rightDepth > st8.globalDiameter))
            currentPath st9.diameterPath st9.globalDiameter)
        let st11 := pushStep st10
          (depthCompareStep st10.stepIndex id leftDepth rightDepth
            currentPath st10.diameterPath st10.globalDiameter)
        let st12 := pushStep st11
          (exitStep st11.stepIndex id val leftDepth rightDepth parentId
            currentPath st11.diameterPath st11.globalDiameter)
        (max leftDepth rightDepth + 1, st12)

/-- `generateAlgorithmSteps` (src/unnamed/part_006, lines 110-381). -/
def generateAlgorithmSteps (root : D3TreeNode) : List AlgorithmStep :=
  let st0 : GenState := ⟨[], 0, 0, []⟩
  let st1 := pushStep st0 initStep
  match root with
  | .nil => (pushStep st1 (emptyRootStep st1.stepIndex)).steps
  | .node id val _x _y _l _r _d _h _p _n =>
    let st2 := pushStep st1 (rootDispatchStep st1.stepIndex id val)
    match processNode root [] Option.none st2 with
    | (_, st3) =>
      (pushStep st3
        (finalStep st3.stepIndex st3.diameterPath st3.globalDiameter)).steps

/-- `convertToD3Tree` (src/src/utils/treeUtils.ts, lines 83-156).
`parentIsNull` carries the only information the source reads from the
`parent` argument: `none` when there is no parent, `some b` when the parent
exists and has `isNull = b`.  Recursive calls pass `some false` because the
parent being constructed is a real node. -/
def convertToD3Tree : TreeNode → String → Nat → Option Bool → Bool →
    D3TreeNode
  | .nil, id, depth, parentIsNull, includeNullNodes =>
    if includeNullNodes then
      match parentIsNull with
      | some false =>
        .node id Option.none 0 0 .nil .nil depth false false true
      | _ => .nil
    else .nil
  | .node v l r, id, depth, _, includeNullNodes =>
    match l, r with
    | .nil, .nil => .node id (some v) 0 0 .nil .nil depth false false false
    | _, _ =>
      .node id (some v) 0 0
        (convertToD3Tree l (id ++ "-L") (depth + 1) (some false)
          includeNullNodes)
        (convertToD3Tree r (id ++ "-R") (depth + 1) (some false)
          includeNullNodes)
        depth false false false

/-- `convertToD3Tree(tree)` as `App` calls it (src/src/App.tsx line 59):
all defaulted parameters, in particular `includeNullNodes = true`. -/
def convertToD3TreeRoot (t : TreeNode) : D3TreeNode :=
  convertToD3Tree t "0" 0 Option.none true

/-- `buildTreeFromArray` (src/src/utils/treeUtils.ts, lines 32-62), BFS
queue loop.  `buildQueue arr i q` returns the finished subtrees of the
queued node values `q` (in queue order) with the next array position to
consume being `i`: popping the head requires `i < arr.length` (the loop
condition); the popped node reads positions `i` and `i+1` as its left and
right child slots, appending the created children to the queue, whose
finished trees are recovered from the recursive call. -/
def buildQueue (arr : List (Option Int)) (i : Nat) (q : List Int) :
    List TreeNode :=
  match q with
  | [] => []
  | v :: rest =>
    if h : i < arr.length then
      let lv : Option Int := arr[i]
      let rv : Option Int := (arr[i + 1]?).join
      let cs : List Int :=
        (match lv with | some a => [a] | Option.none => []) ++
        (match rv with | some b => [b] | Option.none => [])
      let res := buildQueue arr (i + 2) (rest ++ cs)
      let childT := res.drop rest.length
      let lt : TreeNode :=
        match lv with
        | some _ => childT.headD .nil
        | Option.none => .nil
      let rt : TreeNode :=
        match rv with
        | some _ =>
          (match lv with
            | some _ => childT.drop 1
            | Option.none => childT).headD .nil
        | Option.none => .nil
      .node v lt rt :: res.take rest.length
    else
      .node v .nil .nil :: buildQueue arr i rest
termination_by (arr.length - i, q.length)
decreasing_by
  · exact Prod.Lex.left _ _ (by omega)
  · exact Prod.Lex.right _ (by simp only [List.length_cons]; omega)

/-- `buildTreeFromArray` (src/src/utils/treeUtils.ts, lines 32-62): empty
array or `null` root gives `null`; otherwise the root value is queued and
the loop starts at position 1. -/
def buildTreeFromArray (arr : List (Option Int)) : TreeNode :=
  match arr with
  | [] => .nil
  | Option.none :: _ => .nil
  | some v :: _ => (buildQueue arr 1 [v]).headD .nil

/-- `validateTreeArray` (src/src/utils/treeUtils.ts, lines 421-436). -/
def validateTreeArray (arr : List (Option Int)) : Bool :=
  match arr with
  | [] => false
  | Option.none :: _ => false
  | some _ :: _ =>
    (arr.all fun v =>
      match v with
      | Option.none => true
      | some n => decide (-100 ≤ n) && decide (n ≤ 100)) &&
    decide (arr.length ≤ 10000)

/-- The full pipeline as `App` composes it (src/src/App.tsx lines 55-63):
`buildTreeFromArray`, then `convertToD3Tree` with defaults, then
`generateAlgorithmSteps`. -/
def appPipelineSteps (arr : List (Option Int)) : List AlgorithmStep :=
  generateAlgorithmSteps (convertToD3TreeRoot (buildTreeFromArray arr))

/-! ### Independent reference definitions (from the spec's words) -/

/-- Depth of a subtree: number of nodes on the longest downward path
(absent tree has depth 0) — the quantity `depth()` returns in the
algorithm. -/
def treeDepth : TreeNode → Nat
  | .nil => 0
  | .node _ l r => max (treeDepth l) (treeDepth r) + 1

/-- The true diameter, defined independently as the spec words it: the
maximum over all nodes of (left subtree depth + right subtree depth),
`0` for the absent tree. -/
def trueDiameter : TreeNode → Nat
  | .nil => 0
  | .node _ l r =>
    max (treeDepth l + treeDepth r) (max (trueDiameter l) (trueDiameter r))

/-- Modelled from the spec words of C6: level-order interpretation where
the node *at array index* `i` has its left child at index `2i+1` and its
right child at index `2i+2`, `null` meaning absent, stopping once the
array is exhausted. -/
def buildTreeByIndexAux (arr : List (Option Int)) (p : Nat) : TreeNode :=
  if h : p < arr.length then
    match arr[p] with
    | Option.none => .nil
    | some v =>
      .node v (buildTreeByIndexAux arr (2 * p + 1))
        (buildTreeByIndexAux arr (2 * p + 2))
  else .nil
termination_by arr.length - p
decreasing_by
  · omega
  · omega

/-- Root of the index-formula interpretation of the array (spec model for
C6). -/
def buildTreeByIndex (arr : List (Option Int)) : TreeNode :=
  buildTreeByIndexAux arr 0

/-- Preorder list of the ids of a decorated tree (placeholder nodes
included — the step generator processes them like any other node). -/
def idsOf : D3TreeNode → List String
  | .nil => []
  | .node id _ _ _ l r _ _ _ _ => id :: (idsOf l ++ idsOf r)

/-! ### Selectors and auxiliary observations on trees and step lists -/

/-- Direction of a descent in a binary tree; a list of directions is a tree
position (the ids `0-L-R...` encode exactly these). -/
inductive Dir where
  | L
  | R
  deriving DecidableEq, Repr

/-- Whether the plain tree has a node at the given position. -/
def hasNodeAtB : TreeNode → List Dir → Bool
  | .nil, _ => false
  | .node _ _ _, [] => true
  | .node _ l _, .L :: p => hasNodeAtB l p
  | .node _ _ r, .R :: p => hasNodeAtB r p

/-- Whether the decorated tree has a node at the given position. -/
def hasNodeAtD3 : D3TreeNode → List Dir → Bool
  | .nil, _ => false
  | .node _ _ _ _ _ _ _ _ _ _, [] => true
  | .node _ _ _ _ l _ _ _ _ _, .L :: p => hasNodeAtD3 l p
  | .node _ _ _ _ _ r _ _ _ _, .R :: p => hasNodeAtD3 r p

/-- All positions of a decorated tree together with the node's `isNull`
flag, in preorder. -/
def d3ShapeFlags : D3TreeNode → List (List Dir × Bool)
  | .nil => []
  | .node _ _ _ _ l r _ _ _ isN =>
    ([], isN) ::
      ((d3ShapeFlags l).map (fun pb => (Dir.L :: pb.1, pb.2)) ++
        (d3ShapeFlags r).map (fun pb => (Dir.R :: pb.1, pb.2)))

/-- Reference shape of the decorated tree, computed on the plain tree: a
real node (`false` flag) at every position of the input tree, plus an
`isNull` placeholder (`true` flag) at each absent child position of every
non-leaf node. -/
def expectedShapeFlags : TreeNode → List (List Dir × Bool)
  | .nil => []
  | .node _ .nil .nil => [([], false)]
  | .node _ .nil (.node rv rl rr) =>
    ([], false) ::
      ([([Dir.L], true)] ++
        (expectedShapeFlags (.node rv rl rr)).map
          (fun pb => (Dir.R :: pb.1, pb.2)))
  | .node _ (.node lv ll lr) .nil =>
    ([], false) ::
      ((expectedShapeFlags (.node lv ll lr)).map
          (fun pb => (Dir.L :: pb.1, pb.2)) ++
        [([Dir.R], true)])
  | .node _ (.node lv ll lr) (.node rv rl rr) =>
    ([], false) ::
      ((expectedShapeFlags (.node lv ll lr)).map
          (fun pb => (Dir.L :: pb.1, pb.2)) ++
        (expectedShapeFlags (.node rv rl rr)).map
          (fun pb => (Dir.R :: pb.1, pb.2)))

/-- Structural identity of two plain trees (same shape, values ignored):
the sense in which the spec calls two trees "structurally identical" when
stating that decoration depends on shape alone. -/
def shapeEq : TreeNode → TreeNode → Bool
  | .nil, .nil => true
  | .node _ l r, .node _ l' r' => shapeEq l l' && shapeEq r r'
  | _, _ => false

/-- The (id, depth) pairs of all decorated nodes, in preorder. -/
def idDepthPairs : D3TreeNode → List (String × Nat)
  | .nil => []
  | .node id _ _ _ l r d _ _ _ =>
    (id, d) :: (idDepthPairs l ++ idDepthPairs r)

/-- Equality of decorated trees on the fields `generateAlgorithmSteps`
actually reads (`id`, `val`, structure); layout coordinates, depth and the
visual flags are ignored. -/
def coreEq : D3TreeNode → D3TreeNode → Bool
  | .nil, .nil => true
  | .node id v _ _ l r _ _ _ _, .node id' v' _ _ l' r' _ _ _ _ =>
    id == id' && v == v' && coreEq l l' && coreEq r r'
  | _, _ => false

/-- Occurrence of a subtree inside a decorated tree. -/
inductive SubtreeOcc : D3TreeNode → D3TreeNode → Prop where
  | refl (t : D3TreeNode) : SubtreeOcc t t
  | inLeft {s : D3TreeNode} (id : String) (val : Option Int) (x y : Int)
      (l r : D3TreeNode) (d : Nat) (hb hp hn : Bool)
      (hs : SubtreeOcc s l) : SubtreeOcc s (.node id val x y l r d hb hp hn)
  | inRight {s : D3TreeNode} (id : String) (val : Option Int) (x y : Int)
      (l r : D3TreeNode) (d : Nat) (hb hp hn : Bool)
      (hs : SubtreeOcc s r) : SubtreeOcc s (.node id val x y l r d hb hp hn)

/-- Selects the recursion-enter and recursion-exit steps carrying the given
node id. -/
def isEnterExitFor (id : String) (s : AlgorithmStep) : Bool :=
  s.currentNodeId == some id &&
    (match s.animationType with
      | .recursionEnter => true
      | .recursionExit => true
      | _ => false)

/-- Selects the compare / update-diameter / recursion-exit steps carrying
the given node id (the per-node bookkeeping tail of its invocation). -/
def isSummaryFor (id : String) (s : AlgorithmStep) : Bool :=
  s.currentNodeId == some id &&
    (match s.animationType with
      | .compare => true
      | .updateDiameter => true
      | .recursionExit => true
      | _ => false)

/-- The constant description text of every right-child dispatch step. -/
def rightDispatchDesc : String := "⬇️ 递归调用depth(node.right)，进入右子树"

/-- Selects the right-child dispatch step of the node with the given id:
a param-pass step carrying that id whose description is the (constant)
right-dispatch text. -/
def isRightDispatchFor (id : String) (s : AlgorithmStep) : Bool :=
  (match s.animationType with
    | .paramPass => true
    | _ => false) &&
    s.currentNodeId == some id && s.description == rightDispatchDesc

/-- Selects steps attributed (by `currentNodeId`) to any of the given left
subtree ids, together with the right-dispatch step of the parent node. -/
def leftOrRightDispatchSel (nid : String) (lids : List String)
    (s : AlgorithmStep) : Bool :=
  (match s.currentNodeId with
    | some x => lids.contains x
    | Option.none => false) || isRightDispatchFor nid s

/-- Invariant tying the generator state's counter to its emitted steps:
the next index equals the number of steps and the recorded `stepIndex`
fields are exactly `0..n-1` in order. -/
def IndexedOk (st : GenState) : Prop :=
  st.stepIndex = st.steps.length ∧
  st.steps.map AlgorithmStep.stepIndex = List.range st.steps.length

/-- Invariant for diameter monotonicity: the `currentDiameter` fields of
the emitted steps are pairwise non-decreasing and all bounded by the
current `globalDiameter`. -/
def DiaOk (st : GenState) : Prop :=
  st.steps.Pairwise
    (fun a b => a.currentDiameter ≤ b.currentDiameter) ∧
  ∀ s ∈ st.steps, s.currentDiameter ≤ st.globalDiameter

/-! ### C1, C5, C6, C7: concrete evaluations -/

/-- C1 (code_bug evaluation): on the valid input array `[1, 2]` the App
pipeline `buildTreeFromArray` → `convertToD3Tree` (defaults, hence with
`isNull` placeholders) → `generateAlgorithmSteps` ends with
`currentDiameter = 2`, while the true diameter of the tree built from
`[1, 2]` (max over all nodes of left depth + right depth) is `1`: the
step generator treats the `0-R` placeholder node as a real child of depth
one because it only tests `!node`, never `isNull`. -/
theorem c1_pipeline_final_diameter_wrong_on_pair :
    validateTreeArray [some 1, some 2] = true ∧
    (appPipelineSteps [some 1, some 2]).getLast?.map
      AlgorithmStep.currentDiameter = some 2 ∧
    trueDiameter (buildTreeFromArray [some 1, some 2]) = 1 := by
  have hb : buildTreeFromArray [some 1, some 2] =
      TreeNode.node 1 (.node 2 .nil .nil) .nil := by
    simp [buildTreeFromArray, buildQueue]
  refine ⟨by decide, ?_, ?_⟩
  · unfold appPipelineSteps
    rw [hb]
    decide
  · rw [hb]
    decide

/-- C5 (counterexample): for the single-node tree built from `[5]`, the
generated sequence does contain param-pass steps for the two absent
children (three param-pass steps in total, counting the root dispatch), so
it is not the nine-kind sequence the claim describes. -/
theorem c5_counterexample_single_node_has_absent_param_pass :
    ((appPipelineSteps [some 5]).filter
      (fun s => s.animationType == AnimationType.paramPass)).length = 3 ∧
    (appPipelineSteps [some 5]).map AlgorithmStep.animationType ≠
      [AnimationType.none, .paramPass, .recursionEnter, .returnValue,
        .returnValue, .compare, .updateDiameter, .compare, .recursionExit,
        .none] := by
  have hb : buildTreeFromArray [some 5] = TreeNode.node 5 .nil .nil := by
    simp [buildTreeFromArray, buildQueue]
  unfold appPipelineSteps
  rw [hb]
  refine ⟨by decide, by decide⟩

/-- C5 (amended): for every single-node tree, the sequence is exactly
init, root-dispatch, enter, left param-pass (null marker), left
absent-child return, left return-to-parent, right param-pass (null
marker), right absent-child return, right return-to-parent, compare,
update, depth-compare, exit, terminal — i.e. a param-pass step IS emitted
for each absent child, followed by the absent-child return-value step. -/
theorem c5_amended_single_node_step_kinds (v : Int) :
    (generateAlgorithmSteps
      (convertToD3TreeRoot (TreeNode.node v .nil .nil))).map
        AlgorithmStep.animationType =
    [AnimationType.none, .paramPass, .recursionEnter, .paramPass,
      .returnValue, .returnValue, .paramPass, .returnValue, .returnValue,
      .compare, .updateDiameter, .compare, .recursionExit, .none] := rfl

/-- C6 (counterexample): on `[1, null, 2, 3]` the queue-based
`buildTreeFromArray` gives node `2` the left child `3` (null entries do
not reserve child slots), whereas the claimed `2i+1`/`2i+2` index formula
leaves node `2` childless; the two interpretations disagree. -/
theorem c6_counterexample_null_shifts_children :
    buildTreeFromArray [some 1, Option.none, some 2, some 3] =
      TreeNode.node 1 .nil (.node 2 (.node 3 .nil .nil) .nil) ∧
    buildTreeByIndex [some 1, Option.none, some 2, some 3] =
      TreeNode.node 1 .nil (.node 2 .nil .nil) ∧
    buildTreeFromArray [some 1, Option.none, some 2, some 3] ≠
      buildTreeByIndex [some 1, Option.none, some 2, some 3] := by
  have hq : buildTreeFromArray [some 1, Option.none, some 2, some 3] =
      TreeNode.node 1 .nil (.node 2 (.node 3 .nil .nil) .nil) := by
    simp [buildTreeFromArray, buildQueue]
  have hi : buildTreeByIndex [some 1, Option.none, some 2, some 3] =
      TreeNode.node 1 .nil (.node 2 .nil .nil) := by
    simp [buildTreeByIndex, buildTreeByIndexAux]
  refine ⟨hq, hi, ?_⟩
  rw [hq, hi]
  decide

/-- C7 (counterexample): for the input tree built from `[1, 2]` the
decorated tree has a node at the root's right-child position (the `0-R`
`isNull` placeholder) although the input tree has none, so the decoration
does not mirror the input shape exactly. -/
theorem c7_counterexample_placeholder_at_absent_child :
    hasNodeAtD3 (convertToD3TreeRoot (buildTreeFromArray [some 1, some 2]))
      [Dir.R] = true ∧
    hasNodeAtB (buildTreeFromArray [some 1, some 2]) [Dir.R] = false := by
  have hb : buildTreeFromArray [some 1, some 2] =
      TreeNode.node 1 (.node 2 .nil .nil) .nil := by
    simp [buildTreeFromArray, buildQueue]
  rw [hb]
  refine ⟨by decide, by decide⟩

/-! ### C7 (amended) and C9: decoration shape and determinism -/

/-- Unfolding `convertToD3Tree` at an absent child of a real parent:
the `isNull` placeholder is created. -/
theorem convertToD3Tree_nil_child (id : String) (d : Nat) :
    convertToD3Tree .nil id d (some false) true =
      .node id Option.none 0 0 .nil .nil d false false true := rfl

/-- Unfolding `convertToD3Tree` at a leaf: no placeholder children. -/
theorem convertToD3Tree_leaf (v : Int) (id : String) (d : Nat)
    (pin : Option Bool) (inc : Bool) :
    convertToD3Tree (.node v .nil .nil) id d pin inc =
      .node id (some v) 0 0 .nil .nil d false false false := rfl

/-- Unfolding `convertToD3Tree` at a node with only a right child. -/
theorem convertToD3Tree_nil_node (v rv : Int) (rl rr : TreeNode)
    (id : String) (d : Nat) (pin : Option Bool) (inc : Bool) :
    convertToD3Tree (.node v .nil (.node rv rl rr)) id d pin inc =
      .node id (some v) 0 0
        (convertToD3Tree .nil (id ++ "-L") (d + 1) (some false) inc)
        (convertToD3Tree (.node rv rl rr) (id ++ "-R") (d + 1) (some false)
          inc)
        d false false false := rfl

/-- Unfolding `convertToD3Tree` at a node with only a left child. -/
theorem convertToD3Tree_node_nil (v lv : Int) (ll lr : TreeNode)
    (id : String) (d : Nat) (pin : Option Bool) (inc : Bool) :
    convertToD3Tree (.node v (.node lv ll lr) .nil) id d pin inc =
      .node id (some v) 0 0
        (convertToD3Tree (.node lv ll lr) (id ++ "-L") (d + 1) (some false)
          inc)
        (convertToD3Tree .nil (id ++ "-R") (d + 1) (some false) inc)
        d false false false := rfl

/-- Unfolding `convertToD3Tree` at a node with two children. -/
theorem convertToD3Tree_node_node (v lv rv : Int) (ll lr rl rr : TreeNode)
    (id : String) (d : Nat) (pin : Option Bool) (inc : Bool) :
    convertToD3Tree (.node v (.node lv ll lr) (.node rv rl rr)) id d pin
        inc =
      .node id (some v) 0 0
        (convertToD3Tree (.node lv ll lr) (id ++ "-L") (d + 1) (some false)
          inc)
        (convertToD3Tree (.node rv rl rr) (id ++ "-R") (d + 1) (some false)
          inc)
        d false false false := rfl

/-- Recursive-call form of the shape characterization: a child conversion
(parent a real node, `includeNullNodes = true`) yields one placeholder when
the child is absent, and otherwise the reference shape of the child,
independently of the id/depth bookkeeping arguments. -/
theorem convertToD3Tree_shapeFlags (t : TreeNode) : ∀ (id : String) (d : Nat),
    d3ShapeFlags (convertToD3Tree t id d (some false) true) =
      if t = TreeNode.nil then [([], true)] else expectedShapeFlags t := by
  induction t with
  | nil => intro id d; rfl
  | node v l r ihl ihr =>
    intro id d
    cases l with
    | nil =>
      cases r with
      | nil => simp [convertToD3Tree_leaf, d3ShapeFlags, expectedShapeFlags]
      | node rv rl rr =>
        simp [convertToD3Tree_nil_node, convertToD3Tree_nil_child,
          d3ShapeFlags, expectedShapeFlags, ihr]
    | node lv ll lr =>
      cases r with
      | nil =>
        simp [convertToD3Tree_node_nil, convertToD3Tree_nil_child,
          d3ShapeFlags, expectedShapeFlags, ihl]
      | node rv rl rr =>
        simp [convertToD3Tree_node_node, d3ShapeFlags, expectedShapeFlags,
          ihl, ihr]

/-- C7 (amended): the decorated tree produced by `convertToD3Tree` as App
calls it has a real node exactly at each position of the input tree and an
`isNull` placeholder exactly at each absent-child position of a non-leaf
node (and nothing else); `expectedShapeFlags` is that reference shape
computed on the plain tree. -/
theorem c7_amended_shape_with_placeholders (t : TreeNode) :
    d3ShapeFlags (convertToD3TreeRoot t) = expectedShapeFlags t := by
  cases t with
  | nil => rfl
  | node v l r =>
    have hpin : convertToD3TreeRoot (TreeNode.node v l r) =
        convertToD3Tree (TreeNode.node v l r) "0" 0 (some false) true := rfl
    rw [hpin, convertToD3Tree_shapeFlags]
    simp

/-- Shape-identical inputs decorate to the same (id, depth) pairs: helper
for C9, general in the id/depth bookkeeping arguments. -/
theorem convertToD3Tree_pairs_of_shapeEq :
    ∀ (t1 t2 : TreeNode), shapeEq t1 t2 = true → ∀ (id : String) (d : Nat),
      idDepthPairs (convertToD3Tree t1 id d (some false) true) =
      idDepthPairs (convertToD3Tree t2 id d (some false) true) := by
  intro t1
  induction t1 with
  | nil =>
    intro t2 h
    cases t2 with
    | nil => intro id d; rfl
    | node v2 l2 r2 => simp [shapeEq] at h
  | node v l r ihl ihr =>
    intro t2 h
    cases t2 with
    | nil => simp [shapeEq] at h
    | node v2 l2 r2 =>
      simp only [shapeEq, Bool.and_eq_true] at h
      obtain ⟨h1, h2⟩ := h
      intro id d
      cases l with
      | nil =>
        cases l2 with
        | node lv2 ll2 lr2 => simp [shapeEq] at h1
        | nil =>
          cases r with
          | nil =>
            cases r2 with
            | node rv2 rl2 rr2 => simp [shapeEq] at h2
            | nil => rfl
          | node rv rl rr =>
            cases r2 with
            | nil => simp [shapeEq] at h2
            | node rv2 rl2 rr2 =>
              simp [convertToD3Tree_nil_node, idDepthPairs, ihr _ h2]
      | node lv ll lr =>
        cases l2 with
        | nil => simp [shapeEq] at h1
        | node lv2 ll2 lr2 =>
          cases r with
          | nil =>
            cases r2 with
            | node rv2 rl2 rr2 => simp [shapeEq] at h2
            | nil =>
              simp [convertToD3Tree_node_nil, idDepthPairs, ihl _ h1]
          | node rv rl rr =>
            cases r2 with
            | nil => simp [shapeEq] at h2
            | node rv2 rl2 rr2 =>
              simp [convertToD3Tree_node_node, idDepthPairs, ihl _ h1,
                ihr _ h2]

/-- `coreEq` children have the same observable id, edge and dispatch
payload: helper for C9. -/
theorem coreEq_childObs (a b : D3TreeNode) (h : coreEq a b = true) :
    D3TreeNode.optId a = D3TreeNode.optId b ∧
    (∀ i, edgeList i a = edgeList i b) ∧
    dispatchValue a = dispatchValue b := by
  cases a with
  | nil =>
    cases b with
    | nil => exact ⟨rfl, fun _ => rfl, rfl⟩
    | node id2 v2 x2 y2 l2 r2 d2 hb2 hp2 hn2 => simp [coreEq] at h
  | node id v x y l r d hb hp hn =>
    cases b with
    | nil => simp [coreEq] at h
    | node id2 v2 x2 y2 l2 r2 d2 hb2 hp2 hn2 =>
      simp only [coreEq, Bool.and_eq_true, beq_iff_eq] at h
      obtain ⟨⟨⟨hid, hv⟩, h1⟩, h2⟩ := h
      subst hid; subst hv
      exact ⟨rfl, fun _ => rfl, rfl⟩

/-- `leftDispatchStep` only reads the observable part of the child. -/
theorem leftDispatchStep_congr (a b : D3TreeNode) (h : coreEq a b = true)
    (i : Nat) (id : String) (v : Option Int) (cp dp : List String)
    (g : Nat) :
    leftDispatchStep i id v a cp dp g = leftDispatchStep i id v b cp dp g := by
  obtain ⟨h1, h2, h3⟩ := coreEq_childObs a b h
  simp [leftDispatchStep, h1, h2, h3]

/-- `leftReturnStep` only reads the observable part of the child. -/
theorem leftReturnStep_congr (a b : D3TreeNode) (h : coreEq a b = true)
    (i : Nat) (id : String) (v : Option Int) (ld : Nat)
    (cp dp : List String) (g : Nat) :
    leftReturnStep i id v a ld cp dp g = leftReturnStep i id v b ld cp dp g := by
  obtain ⟨h1, h2, h3⟩ := coreEq_childObs a b h
  simp [leftReturnStep, h1, h2, h3]

/-- `rightDispatchStep` only reads the observable part of the child. -/
theorem rightDispatchStep_congr (a b : D3TreeNode) (h : coreEq a b = true)
    (i : Nat) (id : String) (v : Option Int) (ld : Nat)
    (cp dp : List String) (g : Nat) :
    rightDispatchStep i id v a ld cp dp g =
      rightDispatchStep i id v b ld cp dp g := by
  obtain ⟨h1, h2, h3⟩ := coreEq_childObs a b h
  simp [rightDispatchStep, h1, h2, h3]

/-- `rightReturnStep` only reads the observable part of the child. -/
theorem rightReturnStep_congr (a b : D3TreeNode) (h : coreEq a b = true)
    (i : Nat) (id : String) (v : Option Int) (ld rd : Nat)
    (cp dp : List String) (g : Nat) :
    rightReturnStep i id v a ld rd cp dp g =
      rightReturnStep i id v b ld rd cp dp g := by
  obtain ⟨h1, h2, h3⟩ := coreEq_childObs a b h
  simp [rightReturnStep, h1, h2, h3]

/-- `processNode` reads only the `id`, `val` and structure of the tree:
helper for C9. -/
theorem processNode_coreEq :
    ∀ (t t2 : D3TreeNode), coreEq t t2 = true →
      ∀ (p : List String) (pid : Option String) (st : GenState),
        processNode t p pid st = processNode t2 p pid st := by
  intro t
  induction t with
  | nil =>
    intro t2 h
    cases t2 with
    | nil => intro p pid st; rfl
    | node id2 v2 x2 y2 l2 r2 d2 hb2 hp2 hn2 => simp [coreEq] at h
  | node id v x y l r d hb hp hn ihl ihr =>
    intro t2 h
    cases t2 with
    | nil => simp [coreEq] at h
    | node id2 v2 x2 y2 l2 r2 d2 hb2 hp2 hn2 =>
      simp only [coreEq, Bool.and_eq_true, beq_iff_eq] at h
      obtain ⟨⟨⟨hid, hv⟩, hl⟩, hr⟩ := h
      subst hid; subst hv
      intro p pid st
      simp only [processNode, ihl _ hl, ihr _ hr,
        leftDispatchStep_congr _ _ hl, leftReturnStep_congr _ _ hl,
        rightDispatchStep_congr _ _ hr, rightReturnStep_congr _ _ hr]

/-- C9: determinism of the two core functions.  First half: decoration is
determined by tree shape alone — structurally identical plain trees yield
identical decorated (id, depth) pairs (hence identical id sets and depth
values).  Second half: the step generator is a pure function of the fields
it reads (`id`, `val`, structure); two decorated trees equal on those
fields (layout coordinates, depth and visual flags may differ) generate
field-for-field identical step sequences, so in particular two runs on the
same decorated tree coincide. -/
theorem c9_decoration_and_generator_deterministic :
    (∀ t1 t2 : TreeNode, shapeEq t1 t2 = true →
      idDepthPairs (convertToD3TreeRoot t1) =
        idDepthPairs (convertToD3TreeRoot t2)) ∧
    (∀ d1 d2 : D3TreeNode, coreEq d1 d2 = true →
      generateAlgorithmSteps d1 = generateAlgorithmSteps d2) := by
  constructor
  · intro t1 t2 h
    cases t1 with
    | nil =>
      cases t2 with
      | nil => rfl
      | node v2 l2 r2 => simp [shapeEq] at h
    | node v l r =>
      cases t2 with
      | nil => simp [shapeEq] at h
      | node v2 l2 r2 =>
        exact convertToD3Tree_pairs_of_shapeEq _ _ h "0" 0
  · intro d1 d2 h
    cases d1 with
    | nil =>
      cases d2 with
      | nil => rfl
      | node id2 v2 x2 y2 l2 r2 dd2 hb2 hp2 hn2 => simp [coreEq] at h
    | node id v x y l r dd hb hp hn =>
      cases d2 with
      | nil => simp [coreEq] at h
      | node id2 v2 x2 y2 l2 r2 dd2 hb2 hp2 hn2 =>
        have hcore := h
        simp only [coreEq, Bool.and_eq_true, beq_iff_eq] at h
        obtain ⟨⟨⟨hid, hv⟩, hl⟩, hr⟩ := h
        subst hid; subst hv
        simp only [generateAlgorithmSteps,
          processNode_coreEq _ _ hcore]

/-- C9 witness: shape-identical trees with different values decorate to
the same pairs, and core-identical decorated trees differing in layout and
visual flags generate identical step sequences. -/
theorem c9_witness :
    idDepthPairs
        (convertToD3TreeRoot (TreeNode.node 3 (.node 4 .nil .nil) .nil)) =
      idDepthPairs
        (convertToD3TreeRoot (TreeNode.node 7 (.node 9 .nil .nil) .nil)) ∧
    generateAlgorithmSteps
        (D3TreeNode.node "0" (some 1) 5 7 .nil .nil 0 true false false) =
      generateAlgorithmSteps
        (D3TreeNode.node "0" (some 1) 0 0 .nil .nil 3 false true false) :=
  ⟨c9_decoration_and_generator_deterministic.1 _ _ (by decide),
    c9_decoration_and_generator_deterministic.2 _ _ (by decide)⟩

/-! ### State and push-site projection lemmas -/

@[simp] theorem pushStep_steps (st : GenState) (s : AlgorithmStep) :
    (pushStep st s).steps = st.steps ++ [s] := rfl

@[simp] theorem pushStep_stepIndex (st : GenState) (s : AlgorithmStep) :
    (pushStep st s).stepIndex = st.stepIndex + 1 := rfl

@[simp] theorem pushStep_globalDiameter (st : GenState) (s : AlgorithmStep) :
    (pushStep st s).globalDiameter = st.globalDiameter := rfl

@[simp] theorem pushStep_diameterPath (st : GenState) (s : AlgorithmStep) :
    (pushStep st s).diameterPath = st.diameterPath := rfl

@[simp] theorem updIte_steps (c : Prop) [Decidable c] (st : GenState)
    (g : Nat) (dp : List String) :
    (if c then { st with globalDiameter := g, diameterPath := dp }
      else st).steps = st.steps := by
  split <;> rfl

@[simp] theorem updIte_stepIndex (c : Prop) [Decidable c] (st : GenState)
    (g : Nat) (dp : List String) :
    (if c then { st with globalDiameter := g, diameterPath := dp }
      else st).stepIndex = st.stepIndex := by
  split <;> rfl

@[simp] theorem emptyNodeStep_stepIndex (i : Nat) (p : List String)
    (pid : Option String) (dp : List String) (g : Nat) :
    (emptyNodeStep i p pid dp g).stepIndex = i := rfl

@[simp] theorem emptyNodeStep_currentNodeId (i : Nat) (p : List String)
    (pid : Option String) (dp : List String) (g : Nat) :
    (emptyNodeStep i p pid dp g).currentNodeId = Option.none := rfl

@[simp] theorem emptyNodeStep_animationType (i : Nat) (p : List String)
    (pid : Option String) (dp : List String) (g : Nat) :
    (emptyNodeStep i p pid dp g).animationType = .returnValue := rfl

@[simp] theorem emptyNodeStep_currentDiameter (i : Nat) (p : List String)
    (pid : Option String) (dp : List String) (g : Nat) :
    (emptyNodeStep i p pid dp g).currentDiameter = g := rfl

@[simp] theorem enterStep_stepIndex (i : Nat) (id : String)
    (v : Option Int) (cp dp : List String) (g : Nat) :
    (enterStep i id v cp dp g).stepIndex = i := rfl

@[simp] theorem enterStep_currentNodeId (i : Nat) (id : String)
    (v : Option Int) (cp dp : List String) (g : Nat) :
    (enterStep i id v cp dp g).currentNodeId = some id := rfl

@[simp] theorem enterStep_animationType (i : Nat) (id : String)
    (v : Option Int) (cp dp : List String) (g : Nat) :
    (enterStep i id v cp dp g).animationType = .recursionEnter := rfl

@[simp] theorem enterStep_currentDiameter (i : Nat) (id : String)
    (v : Option Int) (cp dp : List String) (g : Nat) :
    (enterStep i id v cp dp g).currentDiameter = g := rfl

@[simp] theorem leftDispatchStep_stepIndex (i : Nat) (id : String)
    (v : Option Int) (c : D3TreeNode) (cp dp : List String) (g : Nat) :
    (leftDispatchStep i id v c cp dp g).stepIndex = i := rfl

@[simp] theorem leftDispatchStep_currentNodeId (i : Nat) (id : String)
    (v : Option Int) (c : D3TreeNode) (cp dp : List String) (g : Nat) :
    (leftDispatchStep i id v c cp dp g).currentNodeId = some id := rfl

@[simp] theorem leftDispatchStep_animationType (i : Nat) (id : String)
    (v : Option Int) (c : D3TreeNode) (cp dp : List String) (g : Nat) :
    (leftDispatchStep i id v c cp dp g).animationType = .paramPass := rfl

@[simp] theorem leftDispatchStep_currentDiameter (i : Nat) (id : String)
    (v : Option Int) (c : D3TreeNode) (cp dp : List String) (g : Nat) :
    (leftDispatchStep i id v c cp dp g).currentDiameter = g := rfl

@[simp] theorem leftDispatchStep_description (i : Nat) (id : String)
    (v : Option Int) (c : D3TreeNode) (cp dp : List String) (g : Nat) :
    (leftDispatchStep i id v c cp dp g).description =
      "⬇️ 递归调用depth(node.left)，进入左子树" := rfl

@[simp] theorem leftReturnStep_stepIndex (i : Nat) (id : String)
    (v : Option Int) (c : D3TreeNode) (ld : Nat) (cp dp : List String)
    (g : Nat) : (leftReturnStep i id v c ld cp dp g).stepIndex = i := rfl

@[simp] theorem leftReturnStep_currentNodeId (i : Nat) (id : String)
    (v : Option Int) (c : D3TreeNode) (ld : Nat) (cp dp : List String)
    (g : Nat) :
    (leftReturnStep i id v c ld cp dp g).currentNodeId = some id := rfl

@[simp] theorem leftReturnStep_animationType (i : Nat) (id : String)
    (v : Option Int) (c : D3TreeNode) (ld : Nat) (cp dp : List String)
    (g : Nat) :
    (leftReturnStep i id v c ld cp dp g).animationType = .returnValue := rfl

@[simp] theorem leftReturnStep_currentDiameter (i : Nat) (id : String)
    (v : Option Int) (c : D3TreeNode) (ld : Nat) (cp dp : List String)
    (g : Nat) :
    (leftReturnStep i id v c ld cp dp g).currentDiameter = g := rfl

@[simp] theorem rightDispatchStep_stepIndex (i : Nat) (id : String)
    (v : Option Int) (c : D3TreeNode) (ld : Nat) (cp dp : List String)
    (g : Nat) : (rightDispatchStep i id v c ld cp dp g).stepIndex = i := rfl

@[simp] theorem rightDispatchStep_currentNodeId (i : Nat) (id : String)
    (v : Option Int) (c : D3TreeNode) (ld : Nat) (cp dp : List String)
    (g : Nat) :
    (rightDispatchStep i id v c ld cp dp g).currentNodeId = some id := rfl

@[simp] theorem rightDispatchStep_animationType (i : Nat) (id : String)
    (v : Option Int) (c : D3TreeNode) (ld : Nat) (cp dp : List String)
    (g : Nat) :
    (rightDispatchStep i id v c ld cp dp g).animationType = .paramPass := rfl

@[simp] theorem rightDispatchStep_currentDiameter (i : Nat) (id : String)
    (v : Option Int) (c : D3TreeNode) (ld : Nat) (cp dp : List String)
    (g : Nat) :
    (rightDispatchStep i id v c ld cp dp g).currentDiameter = g := rfl

@[simp] theorem rightDispatchStep_description (i : Nat) (id : String)
    (v : Option Int) (c : D3TreeNode) (ld : Nat) (cp dp : List String)
    (g : Nat) :
    (rightDispatchStep i id v c ld cp dp g).description =
      rightDispatchDesc := rfl

@[simp] theorem rightReturnStep_stepIndex (i : Nat) (id : String)
    (v : Option Int) (c : D3TreeNode) (ld rd : Nat) (cp dp : List String)
    (g : Nat) : (rightReturnStep i id v c ld rd cp dp g).stepIndex = i := rfl

@[simp] theorem rightReturnStep_currentNodeId (i : Nat) (id : String)
    (v : Option Int) (c : D3TreeNode) (ld rd : Nat) (cp dp : List String)
    (g : Nat) :
    (rightReturnStep i id v c ld rd cp dp g).currentNodeId = some id := rfl

@[simp] theorem rightReturnStep_animationType (i : Nat) (id : String)
    (v : Option Int) (c : D3TreeNode) (ld rd : Nat) (cp dp : List String)
    (g : Nat) :
    (rightReturnStep i id v c ld rd cp dp g).animationType =
      .returnValue := rfl

@[simp] theorem rightReturnStep_currentDiameter (i : Nat) (id : String)
    (v : Option Int) (c : D3TreeNode) (ld rd : Nat) (cp dp : List String)
    (g : Nat) :
    (rightReturnStep i id v c ld rd cp dp g).currentDiameter = g := rfl

@[simp] theorem sumCompareStep_stepIndex (i : Nat) (id : String)
    (ld rd : Nat) (cp dp : List String) (g : Nat) :
    (sumCompareStep i id ld rd cp dp g).stepIndex = i := rfl

@[simp] theorem sumCompareStep_currentNodeId (i : Nat) (id : String)
    (ld rd : Nat) (cp dp : List String) (g : Nat) :
    (sumCompareStep i id ld rd cp dp g).currentNodeId = some id := rfl

@[simp] theorem sumCompareStep_animationType (i : Nat) (id : String)
    (ld rd : Nat) (cp dp : List String) (g : Nat) :
    (sumCompareStep i id ld rd cp dp g).animationType = .compare := rfl

@[simp] theorem sumCompareStep_currentDiameter (i : Nat) (id : String)
    (ld rd : Nat) (cp dp : List String) (g : Nat) :
    (sumCompareStep i id ld rd cp dp g).currentDiameter = g := rfl

@[simp] theorem updateDiameterStep_stepIndex (i : Nat) (id : String)
    (v : Option Int) (ld rd od : Nat) (su : Bool) (cp dp : List String)
    (g : Nat) :
    (updateDiameterStep i id v ld rd od su cp dp g).stepIndex = i := rfl

@[simp] theorem updateDiameterStep_currentNodeId (i : Nat) (id : String)
    (v : Option Int) (ld rd od : Nat) (su : Bool) (cp dp : List String)
    (g : Nat) :
    (updateDiameterStep i id v ld rd od su cp dp g).currentNodeId =
      some id := rfl

@[simp] theorem updateDiameterStep_animationType (i : Nat) (id : String)
    (v : Option Int) (ld rd od : Nat) (su : Bool) (cp dp : List String)
    (g : Nat) :
    (updateDiameterStep i id v ld rd od su cp dp g).animationType =
      .updateDiameter := rfl

@[simp] theorem updateDiameterStep_currentDiameter (i : Nat) (id : String)
    (v : Option Int) (ld rd od : Nat) (su : Bool) (cp dp : List String)
    (g : Nat) :
    (updateDiameterStep i id v ld rd od su cp dp g).currentDiameter =
      g := rfl

@[simp] theorem depthCompareStep_stepIndex (i : Nat) (id : String)
    (ld rd : Nat) (cp dp : List String) (g : Nat) :
    (depthCompareStep i id ld rd cp dp g).stepIndex = i := rfl

@[simp] theorem depthCompareStep_currentNodeId (i : Nat) (id : String)
    (ld rd : Nat) (cp dp : List String) (g : Nat) :
    (depthCompareStep i id ld rd cp dp g).currentNodeId = some id := rfl

@[simp] theorem depthCompareStep_animationType (i : Nat) (id : String)
    (ld rd : Nat) (cp dp : List String) (g : Nat) :
    (depthCompareStep i id ld rd cp dp g).animationType = .compare := rfl

@[simp] theorem depthCompareStep_currentDiameter (i : Nat) (id : String)
    (ld rd : Nat) (cp dp : List String) (g : Nat) :
    (depthCompareStep i id ld rd cp dp g).currentDiameter = g := rfl

@[simp] theorem exitStep_stepIndex (i : Nat) (id : String) (v : Option Int)
    (ld rd : Nat) (pid : Option String) (cp dp : List String) (g : Nat) :
    (exitStep i id v ld rd pid cp dp g).stepIndex = i := rfl

@[simp] theorem exitStep_currentNodeId (i : Nat) (id : String)
    (v : Option Int) (ld rd : Nat) (pid : Option String)
    (cp dp : List String) (g : Nat) :
    (exitStep i id v ld rd pid cp dp g).currentNodeId = some id := rfl

@[simp] theorem exitStep_animationType (i : Nat) (id : String)
    (v : Option Int) (ld rd : Nat) (pid : Option String)
    (cp dp : List String) (g : Nat) :
    (exitStep i id v ld rd pid cp dp g).animationType =
      .recursionExit := rfl

@[simp] theorem exitStep_currentDiameter (i : Nat) (id : String)
    (v : Option Int) (ld rd : Nat) (pid : Option String)
    (cp dp : List String) (g : Nat) :
    (exitStep i id v ld rd pid cp dp g).currentDiameter = g := rfl

@[simp] theorem initStep_stepIndex : initStep.stepIndex = 0 := rfl

@[simp] theorem initStep_currentNodeId :
    initStep.currentNodeId = Option.none := rfl

@[simp] theorem initStep_animationType :
    initStep.animationType = .none := rfl

@[simp] theorem initStep_currentDiameter :
    initStep.currentDiameter = 0 := rfl

@[simp] theorem emptyRootStep_stepIndex (i : Nat) :
    (emptyRootStep i).stepIndex = i := rfl

@[simp] theorem emptyRootStep_currentNodeId (i : Nat) :
    (emptyRootStep i).currentNodeId = Option.none := rfl

@[simp] theorem emptyRootStep_animationType (i : Nat) :
    (emptyRootStep i).animationType = .none := rfl

@[simp] theorem emptyRootStep_currentDiameter (i : Nat) :
    (emptyRootStep i).currentDiameter = 0 := rfl

@[simp] theorem rootDispatchStep_stepIndex (i : Nat) (id : String)
    (v : Option Int) : (rootDispatchStep i id v).stepIndex = i := rfl

@[simp] theorem rootDispatchStep_currentNodeId (i : Nat) (id : String)
    (v : Option Int) :
    (rootDispatchStep i id v).currentNodeId = some id := rfl

@[simp] theorem rootDispatchStep_animationType (i : Nat) (id : String)
    (v : Option Int) :
    (rootDispatchStep i id v).animationType = .paramPass := rfl

@[simp] theorem rootDispatchStep_currentDiameter (i : Nat) (id : String)
    (v : Option Int) : (rootDispatchStep i id v).currentDiameter = 0 := rfl

@[simp] theorem rootDispatchStep_description (i : Nat) (id : String)
    (v : Option Int) :
    (rootDispatchStep i id v).description =
      "调用depth(root)，传递根节点参数" := rfl

@[simp] theorem finalStep_stepIndex (i : Nat) (dp : List String) (g : Nat) :
    (finalStep i dp g).stepIndex = i := rfl

@[simp] theorem finalStep_currentNodeId (i : Nat) (dp : List String)
    (g : Nat) : (finalStep i dp g).currentNodeId = Option.none := rfl

@[simp] theorem finalStep_animationType (i : Nat) (dp : List String)
    (g : Nat) : (finalStep i dp g).animationType = .none := rfl

@[simp] theorem finalStep_currentDiameter (i : Nat) (dp : List String)
    (g : Nat) : (finalStep i dp g).currentDiameter = g := rfl

/-! ### C2: contiguous 0-based step indices -/

/-- Pushing a step stamped with the current counter preserves
`IndexedOk`. -/
theorem IndexedOk.pushIdx {st : GenState} {s : AlgorithmStep}
    (h : IndexedOk st) (hs : s.stepIndex = st.stepIndex) :
    IndexedOk (pushStep st s) := by
  obtain ⟨h1, h2⟩ := h
  constructor
  · simp [h1]
  · simp [h2, hs, h1, List.range_succ]

/-- The diameter-update write does not touch `steps` or `stepIndex`. -/
theorem IndexedOk.updIte {st : GenState} (h : IndexedOk st) (c : Prop)
    [Decidable c] (g : Nat) (dp : List String) :
    IndexedOk
      (if c then { st with globalDiameter := g, diameterPath := dp }
        else st) := by
  split
  · exact h
  · exact h

/-- `processNode` preserves the step-index invariant. -/
theorem processNode_IndexedOk (t : D3TreeNode) :
    ∀ (p : List String) (pid : Option String) (st : GenState),
      IndexedOk st → IndexedOk (processNode t p pid st).2 := by
  induction t with
  | nil =>
    intro p pid st h
    exact h.pushIdx (by simp)
  | node id v x y l r d hb hp hn ihl ihr =>
    intro p pid st h0
    simp only [processNode, pushStep_stepIndex, pushStep_globalDiameter,
      pushStep_diameterPath, updIte_stepIndex, updIte_steps]
    set st2 := pushStep
      (pushStep st
        (enterStep st.stepIndex id v (p ++ [id]) st.diameterPath
          st.globalDiameter))
      (leftDispatchStep (st.stepIndex + 1) id v l (p ++ [id])
        st.diameterPath st.globalDiameter) with hst2
    set leftDepth := (processNode l (p ++ [id]) (some id) st2).1 with hld
    set st3 := (processNode l (p ++ [id]) (some id) st2).2 with hst3
    have h3 : IndexedOk st3 := by
      rw [hst3]
      exact ihl _ _ _ (by rw [hst2]; exact (h0.pushIdx (by simp)).pushIdx (by simp))
    set st5 := pushStep
      (pushStep st3
        (leftReturnStep st3.stepIndex id v l leftDepth (p ++ [id])
          st3.diameterPath st3.globalDiameter))
      (rightDispatchStep (st3.stepIndex + 1) id v r leftDepth (p ++ [id])
        st3.diameterPath st3.globalDiameter) with hst5
    set rightDepth := (processNode r (p ++ [id]) (some id) st5).1 with hrd
    set st6 := (processNode r (p ++ [id]) (some id) st5).2 with hst6
    have h6 : IndexedOk st6 := by
      rw [hst6]
      exact ihr _ _ _ (by rw [hst5]; exact (h3.pushIdx (by simp)).pushIdx (by simp))
    exact (((((h6.pushIdx (by simp)).pushIdx (by simp)).updIte _ _ _).pushIdx
      (by simp)).pushIdx (by simp)).pushIdx (by simp)

/-- C2: for every input tree (the absent tree included),
`generateAlgorithmSteps` returns a non-empty sequence whose `stepIndex`
fields are exactly `0..n-1` in emission order — contiguous, no gaps, each
equal to its array position. -/
theorem c2_step_indices_contiguous (root : D3TreeNode) :
    generateAlgorithmSteps root ≠ [] ∧
    (generateAlgorithmSteps root).map AlgorithmStep.stepIndex =
      List.range (generateAlgorithmSteps root).length := by
  have hInit : IndexedOk (pushStep ⟨[], 0, 0, []⟩ initStep) := by
    constructor <;> simp [pushStep, List.range_succ]
  cases root with
  | nil =>
    refine ⟨by simp [generateAlgorithmSteps], ?_⟩
    have h := hInit.pushIdx
      (s := emptyRootStep (pushStep ⟨[], 0, 0, []⟩ initStep).stepIndex)
      (by simp)
    exact h.2
  | node id v x y l r d hb hp hn =>
    simp only [generateAlgorithmSteps, pushStep_stepIndex,
      pushStep_globalDiameter, pushStep_diameterPath]
    set st2 := pushStep (pushStep ⟨[], 0, 0, []⟩ initStep)
      (rootDispatchStep 1 id v) with hst2
    set st3 := (processNode (D3TreeNode.node id v x y l r d hb hp hn) []
      Option.none st2).2 with hst3
    have h3 : IndexedOk st3 := by
      rw [hst3]
      exact processNode_IndexedOk _ _ _ _
        (by rw [hst2]; exact hInit.pushIdx (by simp))
    have h4 := h3.pushIdx
      (s := finalStep st3.stepIndex st3.diameterPath st3.globalDiameter)
      (by simp)
    exact ⟨by simp, h4.2⟩

/-! ### C3: monotone currentDiameter -/

/-- Pushing a step stamped with the current `globalDiameter` preserves
`DiaOk`. -/
theorem DiaOk.pushDia {st : GenState} {s : AlgorithmStep} (h : DiaOk st)
    (hs : s.currentDiameter = st.globalDiameter) : DiaOk (pushStep st s) := by
  obtain ⟨h1, h2⟩ := h
  constructor
  · show (st.steps ++ [s]).Pairwise _
    rw [List.pairwise_append]
    refine ⟨h1, by simp, ?_⟩
    intro a ha b hb
    simp only [List.mem_singleton] at hb
    subst hb
    rw [hs]
    exact h2 a ha
  · intro q hq
    simp only [pushStep_steps, List.mem_append, List.mem_singleton] at hq
    rcases hq with hq | hq
    · exact h2 q hq
    · subst hq
      exact le_of_eq hs

/-- Raising `globalDiameter` (and resetting the path) preserves `DiaOk`. -/
theorem DiaOk.updIteC {st : GenState} (h : DiaOk st) (c : Prop)
    [Decidable c] (g : Nat) (dp : List String)
    (hc : c → st.globalDiameter ≤ g) :
    DiaOk
      (if c then { st with globalDiameter := g, diameterPath := dp }
        else st) := by
  split
  · exact ⟨h.1, fun s hs => le_trans (h.2 s hs) (hc ‹c›)⟩
  · exact h

/-- `processNode` preserves the diameter-monotonicity invariant. -/
theorem processNode_DiaOk (t : D3TreeNode) :
    ∀ (p : List String) (pid : Option String) (st : GenState),
      DiaOk st → DiaOk (processNode t p pid st).2 := by
  induction t with
  | nil =>
    intro p pid st h
    exact h.pushDia (by simp)
  | node id v x y l r d hb hp hn ihl ihr =>
    intro p pid st h0
    simp only [processNode, pushStep_stepIndex, pushStep_globalDiameter,
      pushStep_diameterPath, updIte_stepIndex, updIte_steps]
    set st2 := pushStep
      (pushStep st
        (enterStep st.stepIndex id v (p ++ [id]) st.diameterPath
          st.globalDiameter))
      (leftDispatchStep (st.stepIndex + 1) id v l (p ++ [id])
        st.diameterPath st.globalDiameter) with hst2
    set leftDepth := (processNode l (p ++ [id]) (some id) st2).1 with hld
    set st3 := (processNode l (p ++ [id]) (some id) st2).2 with hst3
    have h3 : DiaOk st3 := by
      rw [hst3]
      exact ihl _ _ _ (by rw [hst2]; exact (h0.pushDia (by simp)).pushDia (by simp))
    set st5 := pushStep
      (pushStep st3
        (leftReturnStep st3.stepIndex id v l leftDepth (p ++ [id])
          st3.diameterPath st3.globalDiameter))
      (rightDispatchStep (st3.stepIndex + 1) id v r leftDepth (p ++ [id])
        st3.diameterPath st3.globalDiameter) with hst5
    set rightDepth := (processNode r (p ++ [id]) (some id) st5).1 with hrd
    set st6 := (processNode r (p ++ [id]) (some id) st5).2 with hst6
    have h6 : DiaOk st6 := by
      rw [hst6]
      exact ihr _ _ _ (by rw [hst5]; exact (h3.pushDia (by simp)).pushDia (by simp))
    exact ((((h6.pushDia (by simp)).pushDia (by simp)).updIteC _ _ _
      (fun hc => le_of_lt hc)).pushDia (by simp)).pushDia (by simp) |>.pushDia
      (by simp)

/-- C3: `currentDiameter` is monotonically non-decreasing along the step
sequence produced by `generateAlgorithmSteps`: for indices `i ≤ j` inside
the sequence, the diameter at `i` is at most the diameter at `j`. -/
theorem c3_current_diameter_monotone (root : D3TreeNode) (i j : Nat)
    (hij : i ≤ j) (hj : j < (generateAlgorithmSteps root).length) :
    ((generateAlgorithmSteps root).getD i default).currentDiameter ≤
      ((generateAlgorithmSteps root).getD j default).currentDiameter := by
  have hInit : DiaOk (pushStep ⟨[], 0, 0, []⟩ initStep) := by
    constructor
    · simp [pushStep]
    · intro s hs
      simp only [pushStep_steps, List.nil_append, List.mem_singleton] at hs
      subst hs
      simp [pushStep]
  have hPW : (generateAlgorithmSteps root).Pairwise
      (fun a b => a.currentDiameter ≤ b.currentDiameter) := by
    cases root with
    | nil =>
      exact (hInit.pushDia
        (s := emptyRootStep (pushStep ⟨[], 0, 0, []⟩ initStep).stepIndex)
        (by simp [pushStep])).1
    | node id v x y l r d hb hp hn =>
      simp only [generateAlgorithmSteps, pushStep_stepIndex,
        pushStep_globalDiameter, pushStep_diameterPath]
      set st2 := pushStep (pushStep ⟨[], 0, 0, []⟩ initStep)
        (rootDispatchStep 1 id v) with hst2
      set st3 := (processNode (D3TreeNode.node id v x y l r d hb hp hn) []
        Option.none st2).2 with hst3
      have h3 : DiaOk st3 := by
        rw [hst3]
        exact processNode_DiaOk _ _ _ _
          (by rw [hst2]; exact hInit.pushDia (by simp [pushStep]))
      exact (h3.pushDia
        (s := finalStep st3.stepIndex st3.diameterPath st3.globalDiameter)
        (by simp)).1
  have hi : i < (generateAlgorithmSteps root).length := lt_of_le_of_lt hij hj
  rw [List.getD_eq_getElem _ _ hi, List.getD_eq_getElem _ _ hj]
  rcases lt_or_eq_of_le hij with hlt | heq
  · exact List.pairwise_iff_getElem.mp hPW i j hi hj hlt
  · subst heq
    exact le_refl _

/-- C3 witness at the single-node tree, indices 0 and 5. -/
theorem c3_witness :
    ((generateAlgorithmSteps
        (D3TreeNode.node "0" (some 5) 0 0 .nil .nil 0 false false
          false)).getD 0 default).currentDiameter ≤
      ((generateAlgorithmSteps
        (D3TreeNode.node "0" (some 5) 0 0 .nil .nil 0 false false
          false)).getD 5 default).currentDiameter :=
  c3_current_diameter_monotone _ 0 5 (by decide) (by decide)

/-! ### Projection lemmas for record literals and ite states -/

@[simp] theorem GenState_mk_steps (a : List AlgorithmStep) (b c : Nat)
    (d : List String) : (GenState.mk a b c d).steps = a := rfl

@[simp] theorem GenState_mk_stepIndex (a : List AlgorithmStep) (b c : Nat)
    (d : List String) : (GenState.mk a b c d).stepIndex = b := rfl

@[simp] theorem GenState_mk_globalDiameter (a : List AlgorithmStep)
    (b c : Nat) (d : List String) :
    (GenState.mk a b c d).globalDiameter = c := rfl

@[simp] theorem GenState_mk_diameterPath (a : List AlgorithmStep)
    (b c : Nat) (d : List String) :
    (GenState.mk a b c d).diameterPath = d := rfl

@[simp] theorem steps_ite (c : Prop) [Decidable c] (x y : GenState) :
    (if c then x else y).steps = if c then x.steps else y.steps :=
  apply_ite _ _ _ _

@[simp] theorem stepIndex_ite (c : Prop) [Decidable c] (x y : GenState) :
    (if c then x else y).stepIndex =
      if c then x.stepIndex else y.stepIndex :=
  apply_ite _ _ _ _

@[simp] theorem globalDiameter_ite (c : Prop) [Decidable c]
    (x y : GenState) :
    (if c then x else y).globalDiameter =
      if c then x.globalDiameter else y.globalDiameter :=
  apply_ite _ _ _ _

@[simp] theorem diameterPath_ite (c : Prop) [Decidable c] (x y : GenState) :
    (if c then x else y).diameterPath =
      if c then x.diameterPath else y.diameterPath :=
  apply_ite _ _ _ _

/-! ### Frame lemma: a selector rejected by every push site of a subtree
is unchanged by processing that subtree -/

/-- If `sel` rejects the absent-node step and every push-site step whose
node id satisfies `P`, then processing a subtree whose ids all satisfy `P`
leaves the `sel`-filtered step list unchanged. -/
theorem processNode_filter_frame (sel : AlgorithmStep → Bool)
    (P : String → Prop)
    (hempty : ∀ (i : Nat) (p : List String) (pid : Option String)
      (dp : List String) (g : Nat), sel (emptyNodeStep i p pid dp g) = false)
    (henter : ∀ (i : Nat) (nid : String) (v : Option Int)
      (cp dp : List String) (g : Nat), P nid →
      sel (enterStep i nid v cp dp g) = false)
    (hldis : ∀ (i : Nat) (nid : String) (v : Option Int) (c : D3TreeNode)
      (cp dp : List String) (g : Nat), P nid →
      sel (leftDispatchStep i nid v c cp dp g) = false)
    (hlret : ∀ (i : Nat) (nid : String) (v : Option Int) (c : D3TreeNode)
      (ld : Nat) (cp dp : List String) (g : Nat), P nid →
      sel (leftReturnStep i nid v c ld cp dp g) = false)
    (hrdis : ∀ (i : Nat) (nid : String) (v : Option Int) (c : D3TreeNode)
      (ld : Nat) (cp dp : List String) (g : Nat), P nid →
      sel (rightDispatchStep i nid v c ld cp dp g) = false)
    (hrret : ∀ (i : Nat) (nid : String) (v : Option Int) (c : D3TreeNode)
      (ld rd : Nat) (cp dp : List String) (g : Nat), P nid →
      sel (rightReturnStep i nid v c ld rd cp dp g) = false)
    (hcmp : ∀ (i : Nat) (nid : String) (ld rd : Nat) (cp dp : List String)
      (g : Nat), P nid → sel (sumCompareStep i nid ld rd cp dp g) = false)
    (hupd : ∀ (i : Nat) (nid : String) (v : Option Int) (ld rd od : Nat)
      (su : Bool) (cp dp : List String) (g : Nat), P nid →
      sel (updateDiameterStep i nid v ld rd od su cp dp g) = false)
    (hdcmp : ∀ (i : Nat) (nid : String) (ld rd : Nat) (cp dp : List String)
      (g : Nat), P nid → sel (depthCompareStep i nid ld rd cp dp g) = false)
    (hexit : ∀ (i : Nat) (nid : String) (v : Option Int) (ld rd : Nat)
      (pid : Option String) (cp dp : List String) (g : Nat), P nid →
      sel (exitStep i nid v ld rd pid cp dp g) = false) :
    ∀ (t : D3TreeNode), (∀ a ∈ idsOf t, P a) →
      ∀ (p : List String) (pid : Option String) (st : GenState),
        ((processNode t p pid st).2.steps).filter sel =
          st.steps.filter sel := by
  intro t
  induction t with
  | nil =>
    intro hP p pid st
    simp [processNode, List.filter_append, List.filter_singleton, hempty]
  | node id v x y l r d hb hp hn ihl ihr =>
    intro hP p pid st
    have hPid : P id := hP id (by simp [idsOf])
    have hPl : ∀ a ∈ idsOf l, P a := fun a ha => hP a (by simp [idsOf, ha])
    have hPr : ∀ a ∈ idsOf r, P a := fun a ha => hP a (by simp [idsOf, ha])
    simp only [processNode, pushStep_steps, pushStep_stepIndex,
      pushStep_globalDiameter, pushStep_diameterPath, GenState_mk_steps,
      GenState_mk_stepIndex, GenState_mk_globalDiameter,
      GenState_mk_diameterPath, steps_ite, stepIndex_ite, ite_self,
      List.filter_append, List.filter_singleton, ihl hPl, ihr hPr]
    simp [hempty, henter, hldis, hlret, hrdis, hrret, hcmp, hupd, hdcmp,
      hexit, hPid]

/-! ### C8: enter/exit pairing -/

@[simp] theorem none_beq_some (a : String) :
    ((Option.none : Option String) == some a) = false := rfl

@[simp] theorem some_beq_some (a b : String) :
    ((some a : Option String) == some b) = (a == b) := rfl

theorem idsOf_node (id : String) (v : Option Int) (x y : Int)
    (l r : D3TreeNode) (d : Nat) (hb hp hn : Bool) :
    idsOf (.node id v x y l r d hb hp hn) = id :: (idsOf l ++ idsOf r) :=
  rfl

/-- If `sel` accepts exactly the recursion-enter and recursion-exit steps
of node `id` (among all push-site steps whose node ids satisfy `P`), then
processing a subtree containing `id` exactly once appends the two kinds
`[recursionEnter, recursionExit]`, in that order, to the `sel`-filtered
kind list. -/
theorem processNode_filter_enter_exit (sel : AlgorithmStep → Bool)
    (P : String → Prop) (id : String)
    (hempty : ∀ (i : Nat) (p : List String) (pid : Option String)
      (dp : List String) (g : Nat), sel (emptyNodeStep i p pid dp g) = false)
    (henterT : ∀ (i : Nat) (v : Option Int) (cp dp : List String) (g : Nat),
      sel (enterStep i id v cp dp g) = true)
    (hexitT : ∀ (i : Nat) (v : Option Int) (ld rd : Nat)
      (pid : Option String) (cp dp : List String) (g : Nat),
      sel (exitStep i id v ld rd pid cp dp g) = true)
    (henterF : ∀ (i : Nat) (nid : String) (v : Option Int)
      (cp dp : List String) (g : Nat), P nid → nid ≠ id →
      sel (enterStep i nid v cp dp g) = false)
    (hexitF : ∀ (i : Nat) (nid : String) (v : Option Int) (ld rd : Nat)
      (pid : Option String) (cp dp : List String) (g : Nat), P nid →
      nid ≠ id → sel (exitStep i nid v ld rd pid cp dp g) = false)
    (hldis : ∀ (i : Nat) (nid : String) (v : Option Int) (c : D3TreeNode)
      (cp dp : List String) (g : Nat), P nid →
      sel (leftDispatchStep i nid v c cp dp g) = false)
    (hlret : ∀ (i : Nat) (nid : String) (v : Option Int) (c : D3TreeNode)
      (ld : Nat) (cp dp : List String) (g : Nat), P nid →
      sel (leftReturnStep i nid v c ld cp dp g) = false)
    (hrdis : ∀ (i : Nat) (nid : String) (v : Option Int) (c : D3TreeNode)
      (ld : Nat) (cp dp : List String) (g : Nat), P nid →
      sel (rightDispatchStep i nid v c ld cp dp g) = false)
    (hrret : ∀ (i : Nat) (nid : String) (v : Option Int) (c : D3TreeNode)
      (ld rd : Nat) (cp dp : List String) (g : Nat), P nid →
      sel (rightReturnStep i nid v c ld rd cp dp g) = false)
    (hcmp : ∀ (i : Nat) (nid : String) (ld rd : Nat) (cp dp : List String)
      (g : Nat), P nid → sel (sumCompareStep i nid ld rd cp dp g) = false)
    (hupd : ∀ (i : Nat) (nid : String) (v : Option Int) (ld rd od : Nat)
      (su : Bool) (cp dp : List String) (g : Nat), P nid →
      sel (updateDiameterStep i nid v ld rd od su cp dp g) = false)
    (hdcmp : ∀ (i : Nat) (nid : String) (ld rd : Nat) (cp dp : List String)
      (g : Nat), P nid → sel (depthCompareStep i nid ld rd cp dp g) = false) :
    ∀ (t : D3TreeNode), (∀ a ∈ idsOf t, P a) → (idsOf t).Nodup →
      id ∈ idsOf t →
      ∀ (p : List String) (pid : Option String) (st : GenState),
        (((processNode t p pid st).2.steps).filter sel).map
            AlgorithmStep.animationType =
          ((st.steps.filter sel).map AlgorithmStep.animationType) ++
            [.recursionEnter, .recursionExit] := by
  intro t
  induction t with
  | nil => intro _ _ hmem; exact absurd hmem (by simp [idsOf])
  | node nid v x y l r d hb hp hn ihl ihr =>
    intro hP hnd hmem p pid st
    rw [idsOf_node] at hnd hmem
    have hPnid : P nid := hP nid (by simp [idsOf])
    have hPl : ∀ a ∈ idsOf l, P a := fun a ha => hP a (by simp [idsOf, ha])
    have hPr : ∀ a ∈ idsOf r, P a := fun a ha => hP a (by simp [idsOf, ha])
    have hnotin : nid ∉ idsOf l ++ idsOf r := (List.nodup_cons.mp hnd).1
    have hndlr : (idsOf l ++ idsOf r).Nodup := (List.nodup_cons.mp hnd).2
    have hndl : (idsOf l).Nodup := (List.nodup_append.mp hndlr).1
    have hndr : (idsOf r).Nodup := (List.nodup_append.mp hndlr).2.1
    have hdisj : ∀ a ∈ idsOf l, a ∉ idsOf r :=
      fun a ha har => (List.nodup_append.mp hndlr).2.2 ha har
    rcases List.mem_cons.mp hmem with hm | hm
    · -- id is this node's id
      subst hm
      have hneL : ∀ a ∈ idsOf l, a ≠ id := by
        intro a ha he
        exact hnotin (by subst he; simp [ha])
      have hneR : ∀ a ∈ idsOf r, a ≠ id := by
        intro a ha he
        exact hnotin (by subst he; simp [ha])
      have hframeL : ∀ (p2 : List String) (pid2 : Option String)
          (st2 : GenState),
          ((processNode l p2 pid2 st2).2.steps).filter sel =
            st2.steps.filter sel :=
        processNode_filter_frame sel (fun a => P a ∧ a ≠ id) hempty
          (fun i n2 v2 cp dp g h => henterF i n2 v2 cp dp g h.1 h.2)
          (fun i n2 v2 c cp dp g h => hldis i n2 v2 c cp dp g h.1)
          (fun i n2 v2 c ld cp dp g h => hlret i n2 v2 c ld cp dp g h.1)
          (fun i n2 v2 c ld cp dp g h => hrdis i n2 v2 c ld cp dp g h.1)
          (fun i n2 v2 c ld rd cp dp g h => hrret i n2 v2 c ld rd cp dp g h.1)
          (fun i n2 ld rd cp dp g h => hcmp i n2 ld rd cp dp g h.1)
          (fun i n2 v2 ld rd od su cp dp g h =>
            hupd i n2 v2 ld rd od su cp dp g h.1)
          (fun i n2 ld rd cp dp g h => hdcmp i n2 ld rd cp dp g h.1)
          (fun i n2 v2 ld rd pid2 cp dp g h =>
            hexitF i n2 v2 ld rd pid2 cp dp g h.1 h.2)
          l (fun a ha => ⟨hPl a ha, hneL a ha⟩)
      have hframeR : ∀ (p2 : List String) (pid2 : Option String)
          (st2 : GenState),
          ((processNode r p2 pid2 st2).2.steps).filter sel =
            st2.steps.filter sel :=
        processNode_filter_frame sel (fun a => P a ∧ a ≠ id) hempty
          (fun i n2 v2 cp dp g h => henterF i n2 v2 cp dp g h.1 h.2)
          (fun i n2 v2 c cp dp g h => hldis i n2 v2 c cp dp g h.1)
          (fun i n2 v2 c ld cp dp g h => hlret i n2 v2 c ld cp dp g h.1)
          (fun i n2 v2 c ld cp dp g h => hrdis i n2 v2 c ld cp dp g h.1)
          (fun i n2 v2 c ld rd cp dp g h => hrret i n2 v2 c ld rd cp dp g h.1)
          (fun i n2 ld rd cp dp g h => hcmp i n2 ld rd cp dp g h.1)
          (fun i n2 v2 ld rd od su cp dp g h =>
            hupd i n2 v2 ld rd od su cp dp g h.1)
          (fun i n2 ld rd cp dp g h => hdcmp i n2 ld rd cp dp g h.1)
          (fun i n2 v2 ld rd pid2 cp dp g h =>
            hexitF i n2 v2 ld rd pid2 cp dp g h.1 h.2)
          r (fun a ha => ⟨hPr a ha, hneR a ha⟩)
      simp only [processNode, pushStep_steps, pushStep_stepIndex,
        pushStep_globalDiameter, pushStep_diameterPath, GenState_mk_steps,
        GenState_mk_stepIndex, GenState_mk_globalDiameter,
        GenState_mk_diameterPath, steps_ite, stepIndex_ite, ite_self,
        List.filter_append, List.filter_singleton, hframeL, hframeR]
      simp [henterT, hexitT, hldis, hlret, hrdis, hrret, hcmp, hupd,
        hdcmp, hPnid]
    · rcases List.mem_append.mp hm with hml | hmr
      · -- id lies in the left subtree
        have hne : nid ≠ id := fun he =>
          hnotin (by subst he; simp [hml])
        have hneR2 : ∀ a ∈ idsOf r, a ≠ id := by
          intro a ha he
          subst he
          exact hdisj a hml ha
        have hframeR : ∀ (p2 : List String) (pid2 : Option String)
            (st2 : GenState),
            ((processNode r p2 pid2 st2).2.steps).filter sel =
              st2.steps.filter sel :=
          processNode_filter_frame sel (fun a => P a ∧ a ≠ id) hempty
            (fun i n2 v2 cp dp g h => henterF i n2 v2 cp dp g h.1 h.2)
            (fun i n2 v2 c cp dp g h => hldis i n2 v2 c cp dp g h.1)
            (fun i n2 v2 c ld cp dp g h => hlret i n2 v2 c ld cp dp g h.1)
            (fun i n2 v2 c ld cp dp g h => hrdis i n2 v2 c ld cp dp g h.1)
            (fun i n2 v2 c ld rd cp dp g h =>
              hrret i n2 v2 c ld rd cp dp g h.1)
            (fun i n2 ld rd cp dp g h => hcmp i n2 ld rd cp dp g h.1)
            (fun i n2 v2 ld rd od su cp dp g h =>
              hupd i n2 v2 ld rd od su cp dp g h.1)
            (fun i n2 ld rd cp dp g h => hdcmp i n2 ld rd cp dp g h.1)
            (fun i n2 v2 ld rd pid2 cp dp g h =>
              hexitF i n2 v2 ld rd pid2 cp dp g h.1 h.2)
            r (fun a ha => ⟨hPr a ha, hneR2 a ha⟩)
        simp only [processNode, pushStep_steps, pushStep_stepIndex,
          pushStep_globalDiameter, pushStep_diameterPath, GenState_mk_steps,
          GenState_mk_stepIndex, GenState_mk_globalDiameter,
          GenState_mk_diameterPath, steps_ite, stepIndex_ite, ite_self,
          List.filter_append, List.filter_singleton, List.map_append,
          hframeR, ihl hPl hndl hml]
        simp [henterF _ _ _ _ _ _ hPnid hne, hexitF _ _ _ _ _ _ _ _ _
          hPnid hne, hldis, hlret, hrdis, hrret, hcmp, hupd, hdcmp, hPnid]
      · -- id lies in the right subtree
        have hne : nid ≠ id := fun he =>
          hnotin (by subst he; simp [hmr])
        have hneL2 : ∀ a ∈ idsOf l, a ≠ id := by
          intro a ha he
          subst he
          exact hdisj a ha hmr
        have hframeL : ∀ (p2 : List String) (pid2 : Option String)
            (st2 : GenState),
            ((processNode l p2 pid2 st2).2.steps).filter sel =
              st2.steps.filter sel :=
          processNode_filter_frame sel (fun a => P a ∧ a ≠ id) hempty
            (fun i n2 v2 cp dp g h => henterF i n2 v2 cp dp g h.1 h.2)
            (fun i n2 v2 c cp dp g h => hldis i n2 v2 c cp dp g h.1)
            (fun i n2 v2 c ld cp dp g h => hlret i n2 v2 c ld cp dp g h.1)
            (fun i n2 v2 c ld cp dp g h => hrdis i n2 v2 c ld cp dp g h.1)
            (fun i n2 v2 c ld rd cp dp g h =>
              hrret i n2 v2 c ld rd cp dp g h.1)
            (fun i n2 ld rd cp dp g h => hcmp i n2 ld rd cp dp g h.1)
            (fun i n2 v2 ld rd od su cp dp g h =>
              hupd i n2 v2 ld rd od su cp dp g h.1)
            (fun i n2 ld rd cp dp g h => hdcmp i n2 ld rd cp dp g h.1)
            (fun i n2 v2 ld rd pid2 cp dp g h =>
              hexitF i n2 v2 ld rd pid2 cp dp g h.1 h.2)
            l (fun a ha => ⟨hPl a ha, hneL2 a ha⟩)
        simp only [processNode, pushStep_steps, pushStep_stepIndex,
          pushStep_globalDiameter, pushStep_diameterPath, GenState_mk_steps,
          GenState_mk_stepIndex, GenState_mk_globalDiameter,
          GenState_mk_diameterPath, steps_ite, stepIndex_ite, ite_self,
          List.filter_append, List.filter_singleton, List.map_append,
          hframeL, ihr hPr hndr hmr]
        simp [henterF _ _ _ _ _ _ hPnid hne, hexitF _ _ _ _ _ _ _ _ _
          hPnid hne, hldis, hlret, hrdis, hrret, hcmp, hupd, hdcmp, hPnid]

/-- C8: in the sequence produced by `generateAlgorithmSteps` on a tree
with pairwise-distinct ids, the steps selected as recursion-enter or
recursion-exit for a node id occurring in the tree are exactly one enter
followed (strictly later) by exactly one exit. -/
theorem c8_enter_exit_pairing (t : D3TreeNode) (id : String)
    (hnd : (idsOf t).Nodup) (hmem : id ∈ idsOf t) :
    ((generateAlgorithmSteps t).filter (isEnterExitFor id)).map
        AlgorithmStep.animationType =
      [.recursionEnter, .recursionExit] := by
  have hee := processNode_filter_enter_exit (isEnterExitFor id)
    (fun _ => True) id
    (by intro i p pid dp g; simp [isEnterExitFor])
    (by intro i v cp dp g; simp [isEnterExitFor])
    (by intro i v ld rd pid cp dp g; simp [isEnterExitFor])
    (by intro i nid v cp dp g _ hne; simp [isEnterExitFor, hne])
    (by intro i nid v ld rd pid cp dp g _ hne; simp [isEnterExitFor, hne])
    (by intro i nid v c cp dp g _; simp [isEnterExitFor])
    (by intro i nid v c ld cp dp g _; simp [isEnterExitFor])
    (by intro i nid v c ld cp dp g _; simp [isEnterExitFor])
    (by intro i nid v c ld rd cp dp g _; simp [isEnterExitFor])
    (by intro i nid ld rd cp dp g _; simp [isEnterExitFor])
    (by intro i nid v ld rd od su cp dp g _; simp [isEnterExitFor])
    (by intro i nid ld rd cp dp g _; simp [isEnterExitFor])
    t (fun _ _ => trivial) hnd hmem
  cases t with
  | nil => simp [idsOf] at hmem
  | node rid rv rx ry rl rr rdep rhb rhp rhn =>
    simp only [generateAlgorithmSteps, pushStep_steps, pushStep_stepIndex,
      pushStep_globalDiameter, pushStep_diameterPath, List.nil_append,
      List.filter_append, List.filter_singleton, List.map_append, hee]
    simp [isEnterExitFor]

/-- C8 witness: the decorated tree of `[1, 2]` and the left child id. -/
theorem c8_witness :
    ((generateAlgorithmSteps (D3TreeNode.node "0" (some 1) 0 0
        (.node "0-L" (some 2) 0 0 .nil .nil 1 false false false)
        (.node "0-R" Option.none 0 0 .nil .nil 1 false false true)
        0 false false false)).filter (isEnterExitFor "0-L")).map
        AlgorithmStep.animationType =
      [.recursionEnter, .recursionExit] :=
  c8_enter_exit_pairing _ "0-L" (by decide) (by decide)

/-! ### C4: per-node ordering invariants -/

/-- Ids of a subtree occurrence are among the ids of the host tree. -/
theorem SubtreeOcc.ids_subset {s t : D3TreeNode} (h : SubtreeOcc s t) :
    ∀ a ∈ idsOf s, a ∈ idsOf t := by
  induction h with
  | refl => exact fun a ha => ha
  | inLeft id val x y l r d hb hp hn hs ih =>
    exact fun a ha => by simp [idsOf, ih a ha]
  | inRight id val x y l r d hb hp hn hs ih =>
    exact fun a ha => by simp [idsOf, ih a ha]

/-- `contains` is false for a non-member. -/
theorem contains_false {a : String} {l : List String} (h : a ∉ l) :
    l.contains a = false := by
  simp [List.elem_eq_mem, h]

@[simp] theorem ldesc_ne_rdesc :
    (("⬇️ 递归调用depth(node.left)，进入左子树" : String) ==
      rightDispatchDesc) = false := by decide

@[simp] theorem rootdesc_ne_rdesc :
    (("调用depth(root)，传递根节点参数" : String) ==
      rightDispatchDesc) = false := by decide

/-- If `sel` accepts exactly the sum-compare, update, depth-compare and
exit steps of node `id` (among all push-site steps whose node ids satisfy
`P`), then processing a subtree containing `id` exactly once appends the
kinds `[compare, updateDiameter, compare, recursionExit]`, in that order,
to the `sel`-filtered kind list. -/
theorem processNode_filter_summary (sel : AlgorithmStep → Bool)
    (P : String → Prop) (id : String)
    (hempty : ∀ (i : Nat) (p : List String) (pid : Option String)
      (dp : List String) (g : Nat), sel (emptyNodeStep i p pid dp g) = false)
    (hcmpT : ∀ (i : Nat) (ld rd : Nat) (cp dp : List String) (g : Nat),
      sel (sumCompareStep i id ld rd cp dp g) = true)
    (hupdT : ∀ (i : Nat) (v : Option Int) (ld rd od : Nat) (su : Bool)
      (cp dp : List String) (g : Nat),
      sel (updateDiameterStep i id v ld rd od su cp dp g) = true)
    (hdcmpT : ∀ (i : Nat) (ld rd : Nat) (cp dp : List String) (g : Nat),
      sel (depthCompareStep i id ld rd cp dp g) = true)
    (hexitT : ∀ (i : Nat) (v : Option Int) (ld rd : Nat)
      (pid : Option String) (cp dp : List String) (g : Nat),
      sel (exitStep i id v ld rd pid cp dp g) = true)
    (hcmpF : ∀ (i : Nat) (nid : String) (ld rd : Nat) (cp dp : List String)
      (g : Nat), P nid → nid ≠ id →
      sel (sumCompareStep i nid ld rd cp dp g) = false)
    (hupdF : ∀ (i : Nat) (nid : String) (v : Option Int) (ld rd od : Nat)
      (su : Bool) (cp dp : List String) (g : Nat), P nid → nid ≠ id →
      sel (updateDiameterStep i nid v ld rd od su cp dp g) = false)
    (hdcmpF : ∀ (i : Nat) (nid : String) (ld rd : Nat)
      (cp dp : List String) (g : Nat), P nid → nid ≠ id →
      sel (depthCompareStep i nid ld rd cp dp g) = false)
    (hexitF : ∀ (i : Nat) (nid : String) (v : Option Int) (ld rd : Nat)
      (pid : Option String) (cp dp : List String) (g : Nat), P nid →
      nid ≠ id → sel (exitStep i nid v ld rd pid cp dp g) = false)
    (henter : ∀ (i : Nat) (nid : String) (v : Option Int)
      (cp dp : List String) (g : Nat), P nid →
      sel (enterStep i nid v cp dp g) = false)
    (hldis : ∀ (i : Nat) (nid : String) (v : Option Int) (c : D3TreeNode)
      (cp dp : List String) (g : Nat), P nid →
      sel (leftDispatchStep i nid v c cp dp g) = false)
    (hlret : ∀ (i : Nat) (nid : String) (v : Option Int) (c : D3TreeNode)
      (ld : Nat) (cp dp : List String) (g : Nat), P nid →
      sel (leftReturnStep i nid v c ld cp dp g) = false)
    (hrdis : ∀ (i : Nat) (nid : String) (v : Option Int) (c : D3TreeNode)
      (ld : Nat) (cp dp : List String) (g : Nat), P nid →
      sel (rightDispatchStep i nid v c ld cp dp g) = false)
    (hrret : ∀ (i : Nat) (nid : String) (v : Option Int) (c : D3TreeNode)
      (ld rd : Nat) (cp dp : List String) (g : Nat), P nid →
      sel (rightReturnStep i nid v c ld rd cp dp g) = false) :
    ∀ (t : D3TreeNode), (∀ a ∈ idsOf t, P a) → (idsOf t).Nodup →
      id ∈ idsOf t →
      ∀ (p : List String) (pid : Option String) (st : GenState),
        (((processNode t p pid st).2.steps).filter sel).map
            AlgorithmStep.animationType =
          ((st.steps.filter sel).map AlgorithmStep.animationType) ++
            [.compare, .updateDiameter, .compare, .recursionExit] := by
  intro t
  induction t with
  | nil => intro _ _ hmem; exact absurd hmem (by simp [idsOf])
  | node nid v x y l r d hb hp hn ihl ihr =>
    intro hP hnd hmem p pid st
    rw [idsOf_node] at hnd hmem
    have hPnid : P nid := hP nid (by simp [idsOf])
    have hPl : ∀ a ∈ idsOf l, P a := fun a ha => hP a (by simp [idsOf, ha])
    have hPr : ∀ a ∈ idsOf r, P a := fun a ha => hP a (by simp [idsOf, ha])
    have hnotin : nid ∉ idsOf l ++ idsOf r := (List.nodup_cons.mp hnd).1
    have hndlr : (idsOf l ++ idsOf r).Nodup := (List.nodup_cons.mp hnd).2
    have hndl : (idsOf l).Nodup := (List.nodup_append.mp hndlr).1
    have hndr : (idsOf r).Nodup := (List.nodup_append.mp hndlr).2.1
    have hdisj : ∀ a ∈ idsOf l, a ∉ idsOf r :=
      fun a ha har => (List.nodup_append.mp hndlr).2.2 ha har
    have frameFor : ∀ (c : D3TreeNode), (∀ a ∈ idsOf c, P a) →
        (∀ a ∈ idsOf c, a ≠ id) →
        ∀ (p2 : List String) (pid2 : Option String) (st2 : GenState),
          ((processNode c p2 pid2 st2).2.steps).filter sel =
            st2.steps.filter sel := by
      intro c hPc hnec
      exact processNode_filter_frame sel (fun a => P a ∧ a ≠ id) hempty
        (fun i n2 v2 cp dp g h => henter i n2 v2 cp dp g h.1)
        (fun i n2 v2 c2 cp dp g h => hldis i n2 v2 c2 cp dp g h.1)
        (fun i n2 v2 c2 ld cp dp g h => hlret i n2 v2 c2 ld cp dp g h.1)
        (fun i n2 v2 c2 ld cp dp g h => hrdis i n2 v2 c2 ld cp dp g h.1)
        (fun i n2 v2 c2 ld rd cp dp g h =>
          hrret i n2 v2 c2 ld rd cp dp g h.1)
        (fun i n2 ld rd cp dp g h => hcmpF i n2 ld rd cp dp g h.1 h.2)
        (fun i n2 v2 ld rd od su cp dp g h =>
          hupdF i n2 v2 ld rd od su cp dp g h.1 h.2)
        (fun i n2 ld rd cp dp g h => hdcmpF i n2 ld rd cp dp g h.1 h.2)
        (fun i n2 v2 ld rd pid2 cp dp g h =>
          hexitF i n2 v2 ld rd pid2 cp dp g h.1 h.2)
        c (fun a ha => ⟨hPc a ha, hnec a ha⟩)
    rcases List.mem_cons.mp hmem with hm | hm
    · subst hm
      have hneL : ∀ a ∈ idsOf l, a ≠ id := by
        intro a ha he
        exact hnotin (by subst he; simp [ha])
      have hneR : ∀ a ∈ idsOf r, a ≠ id := by
        intro a ha he
        exact hnotin (by subst he; simp [ha])
      have hframeL := frameFor l hPl hneL
      have hframeR := frameFor r hPr hneR
      simp only [processNode, pushStep_steps, pushStep_stepIndex,
        pushStep_globalDiameter, pushStep_diameterPath, GenState_mk_steps,
        GenState_mk_stepIndex, GenState_mk_globalDiameter,
        GenState_mk_diameterPath, steps_ite, stepIndex_ite, ite_self,
        List.filter_append, List.filter_singleton, hframeL, hframeR]
      simp [hcmpT, hupdT, hdcmpT, hexitT, henter, hldis, hlret, hrdis,
        hrret, hPnid]
    · rcases List.mem_append.mp hm with hml | hmr
      · have hne : nid ≠ id := fun he =>
          hnotin (by subst he; simp [hml])
        have hneR2 : ∀ a ∈ idsOf r, a ≠ id := by
          intro a ha he
          subst he
          exact hdisj a hml ha
        have hframeR := frameFor r hPr hneR2
        simp only [processNode, pushStep_steps, pushStep_stepIndex,
          pushStep_globalDiameter, pushStep_diameterPath, GenState_mk_steps,
          GenState_mk_stepIndex, GenState_mk_globalDiameter,
          GenState_mk_diameterPath, steps_ite, stepIndex_ite, ite_self,
          List.filter_append, List.filter_singleton, List.map_append,
          hframeR, ihl hPl hndl hml]
        simp [hcmpF _ _ _ _ _ _ _ hPnid hne, hupdF _ _ _ _ _ _ _ _ _ _
          hPnid hne, hdcmpF _ _ _ _ _ _ _ hPnid hne, hexitF _ _ _ _ _ _ _
          _ _ hPnid hne, henter, hldis, hlret, hrdis, hrret, hPnid]
      · have hne : nid ≠ id := fun he =>
          hnotin (by subst he; simp [hmr])
        have hneL2 : ∀ a ∈ idsOf l, a ≠ id := by
          intro a ha he
          subst he
          exact hdisj a ha hmr
        have hframeL := frameFor l hPl hneL2
        simp only [processNode, pushStep_steps, pushStep_stepIndex,
          pushStep_globalDiameter, pushStep_diameterPath, GenState_mk_steps,
          GenState_mk_stepIndex, GenState_mk_globalDiameter,
          GenState_mk_diameterPath, steps_ite, stepIndex_ite, ite_self,
          List.filter_append, List.filter_singleton, List.map_append,
          hframeL, ihr hPr hndr hmr]
        simp [hcmpF _ _ _ _ _ _ _ hPnid hne, hupdF _ _ _ _ _ _ _ _ _ _
          hPnid hne, hdcmpF _ _ _ _ _ _ _ hPnid hne, hexitF _ _ _ _ _ _ _
          _ _ hPnid hne, henter, hldis, hlret, hrdis, hrret, hPnid]

/-- A list whose marks are all false maps to a replicate of falses. -/
theorem map_false_replicate (m : AlgorithmStep → Bool) :
    ∀ (L : List AlgorithmStep), (∀ a ∈ L, m a = false) →
      L.map m = List.replicate L.length false := by
  intro L
  induction L with
  | nil => intro _; rfl
  | cons a L ih =>
    intro h
    simp only [List.map_cons, List.length_cons, List.replicate_succ,
      List.cons.injEq]
    exact ⟨h a (by simp), ih (fun b hb => h b (by simp [hb]))⟩

/-- If every push-site step whose node id satisfies `P` is, when accepted
by `sel`, marked `false` by `m`, then a run over a subtree whose ids all
satisfy `P` preserves the property that every `sel`-accepted recorded step
is marked `false`. -/
theorem processNode_marks_inv (sel m : AlgorithmStep → Bool)
    (P : String → Prop)
    (hempty : ∀ (i : Nat) (p : List String) (pid : Option String)
      (dp : List String) (g : Nat), sel (emptyNodeStep i p pid dp g) = true →
      m (emptyNodeStep i p pid dp g) = false)
    (henter : ∀ (i : Nat) (nid : String) (v : Option Int)
      (cp dp : List String) (g : Nat), P nid →
      sel (enterStep i nid v cp dp g) = true →
      m (enterStep i nid v cp dp g) = false)
    (hldis : ∀ (i : Nat) (nid : String) (v : Option Int) (c : D3TreeNode)
      (cp dp : List String) (g : Nat), P nid →
      sel (leftDispatchStep i nid v c cp dp g) = true →
      m (leftDispatchStep i nid v c cp dp g) = false)
    (hlret : ∀ (i : Nat) (nid : String) (v : Option Int) (c : D3TreeNode)
      (ld : Nat) (cp dp : List String) (g : Nat), P nid →
      sel (leftReturnStep i nid v c ld cp dp g) = true →
      m (leftReturnStep i nid v c ld cp dp g) = false)
    (hrdis : ∀ (i : Nat) (nid : String) (v : Option Int) (c : D3TreeNode)
      (ld : Nat) (cp dp : List String) (g : Nat), P nid →
      sel (rightDispatchStep i nid v c ld cp dp g) = true →
      m (rightDispatchStep i nid v c ld cp dp g) = false)
    (hrret : ∀ (i : Nat) (nid : String) (v : Option Int) (c : D3TreeNode)
      (ld rd : Nat) (cp dp : List String) (g : Nat), P nid →
      sel (rightReturnStep i nid v c ld rd cp dp g) = true →
      m (rightReturnStep i nid v c ld rd cp dp g) = false)
    (hcmp : ∀ (i : Nat) (nid : String) (ld rd : Nat) (cp dp : List String)
      (g : Nat), P nid → sel (sumCompareStep i nid ld rd cp dp g) = true →
      m (sumCompareStep i nid ld rd cp dp g) = false)
    (hupd : ∀ (i : Nat) (nid : String) (v : Option Int) (ld rd od : Nat)
      (su : Bool) (cp dp : List String) (g : Nat), P nid →
      sel (updateDiameterStep i nid v ld rd od su cp dp g) = true →
      m (updateDiameterStep i nid v ld rd od su cp dp g) = false)
    (hdcmp : ∀ (i : Nat) (nid : String) (ld rd : Nat)
      (cp dp : List String) (g : Nat), P nid →
      sel (depthCompareStep i nid ld rd cp dp g) = true →
      m (depthCompareStep i nid ld rd cp dp g) = false)
    (hexit : ∀ (i : Nat) (nid : String) (v : Option Int) (ld rd : Nat)
      (pid : Option String) (cp dp : List String) (g : Nat), P nid →
      sel (exitStep i nid v ld rd pid cp dp g) = true →
      m (exitStep i nid v ld rd pid cp dp g) = false) :
    ∀ (t : D3TreeNode), (∀ a ∈ idsOf t, P a) →
      ∀ (p : List String) (pid : Option String) (st : GenState),
        (∀ a ∈ st.steps, sel a = true → m a = false) →
        ∀ a ∈ (processNode t p pid st).2.steps,
          sel a = true → m a = false := by
  have hpush : ∀ (s : GenState) (b : AlgorithmStep),
      (∀ a ∈ s.steps, sel a = true → m a = false) →
      (sel b = true → m b = false) →
      ∀ a ∈ (pushStep s b).steps, sel a = true → m a = false := by
    intro s b hs hb a ha
    have h0 : a ∈ s.steps ∨ a = b := by simpa [pushStep] using ha
    rcases h0 with h0 | h0
    · exact hs a h0
    · rw [h0]
      exact hb
  intro t
  induction t with
  | nil =>
    intro hP p pid st hst
    exact hpush st _ hst (hempty _ _ _ _ _)
  | node id v x y l r d hb hp hn ihl ihr =>
    intro hP p pid st hst
    have hPid : P id := hP id (by simp [idsOf])
    have hPl : ∀ a ∈ idsOf l, P a := fun a ha => hP a (by simp [idsOf, ha])
    have hPr : ∀ a ∈ idsOf r, P a := fun a ha => hP a (by simp [idsOf, ha])
    simp only [processNode, pushStep_stepIndex, pushStep_globalDiameter,
      pushStep_diameterPath, updIte_stepIndex, updIte_steps]
    set st2 := pushStep
      (pushStep st
        (enterStep st.stepIndex id v (p ++ [id]) st.diameterPath
          st.globalDiameter))
      (leftDispatchStep (st.stepIndex + 1) id v l (p ++ [id])
        st.diameterPath st.globalDiameter) with hst2
    set leftDepth := (processNode l (p ++ [id]) (some id) st2).1 with hld
    set st3 := (processNode l (p ++ [id]) (some id) st2).2 with hst3
    have h3 : ∀ a ∈ st3.steps, sel a = true → m a = false := by
      rw [hst3]
      exact ihl hPl _ _ _ (by
        rw [hst2]
        exact hpush _ _ (hpush _ _ hst (henter _ _ _ _ _ _ hPid))
          (hldis _ _ _ _ _ _ _ hPid))
    set st5 := pushStep
      (pushStep st3
        (leftReturnStep st3.stepIndex id v l leftDepth (p ++ [id])
          st3.diameterPath st3.globalDiameter))
      (rightDispatchStep (st3.stepIndex + 1) id v r leftDepth (p ++ [id])
        st3.diameterPath st3.globalDiameter) with hst5
    set rightDepth := (processNode r (p ++ [id]) (some id) st5).1 with hrd
    set st6 := (processNode r (p ++ [id]) (some id) st5).2 with hst6
    have h6 : ∀ a ∈ st6.steps, sel a = true → m a = false := by
      rw [hst6]
      exact ihr hPr _ _ _ (by
        rw [hst5]
        exact hpush _ _ (hpush _ _ h3 (hlret _ _ _ _ _ _ _ _ hPid))
          (hrdis _ _ _ _ _ _ _ _ hPid))
    exact hpush _ _ (hpush _ _ (hpush _ _ (by
        intro a ha hsel
        simp only [steps_ite, GenState_mk_steps, ite_self] at ha
        exact hpush _ _ (hpush _ _ h6 (hrret _ _ _ _ _ _ _ _ _ hPid))
          (hcmp _ _ _ _ _ _ _ hPid) a ha hsel)
      (hupd _ _ _ _ _ _ _ _ _ _ hPid)) (hdcmp _ _ _ _ _ _ _ hPid))
      (hexit _ _ _ _ _ _ _ _ _ hPid)

/-- A list of false marks followed by one true mark is a replicate-false
prefix plus `[true]`. -/
theorem exists_replicate_concat {L : List Bool}
    (h : ∀ a ∈ L, a = false) :
    ∃ k, L ++ [true] = List.replicate k false ++ [true] :=
  ⟨L.length, by rw [← List.eq_replicate_of_mem h]⟩

/-- Among the steps selected by the left-or-right-dispatch selector of a
node occurring in the processed subtree, all left-subtree steps come first
(marked false) and the node's right-dispatch step comes last (marked
true): the run appends a false-marked block followed by exactly one
right-dispatch. -/
theorem processNode_filter_pA (nid : String) (nval : Option Int)
    (nx ny : Int) (nl nr : D3TreeNode) (nd : Nat) (nhb nhp nhn : Bool) :
    ∀ (t : D3TreeNode),
      SubtreeOcc (.node nid nval nx ny nl nr nd nhb nhp nhn) t →
      (idsOf t).Nodup →
      ∀ (p : List String) (pid : Option String) (st : GenState),
        st.steps.filter (leftOrRightDispatchSel nid (idsOf nl)) = [] →
        ∃ k, (((processNode t p pid st).2.steps).filter
            (leftOrRightDispatchSel nid (idsOf nl))).map
            (isRightDispatchFor nid) =
          List.replicate k false ++ [true] := by
  intro t
  induction t with
  | nil => intro hocc; cases hocc
  | node tid tv tx ty tl tr td thb thp thn ihl ihr =>
    intro hocc hnd p pid st hstF
    rw [idsOf_node] at hnd
    have hnotin := (List.nodup_cons.mp hnd).1
    have hnd2 := (List.nodup_cons.mp hnd).2
    have hndtl : (idsOf tl).Nodup := (List.nodup_append.mp hnd2).1
    have hndtr : (idsOf tr).Nodup := (List.nodup_append.mp hnd2).2.1
    have hdisj : ∀ a ∈ idsOf tl, a ∉ idsOf tr :=
      fun a ha har => (List.nodup_append.mp hnd2).2.2 ha har
    cases hocc with
    | refl =>
      have hnl : nid ∉ idsOf nl := fun h =>
        hnotin (List.mem_append.mpr (Or.inl h))
      have hneL2 : ∀ a ∈ idsOf nl, a ≠ nid := fun a ha he =>
        hnl (he ▸ ha)
      have hRnl : ∀ a ∈ idsOf nr, a ∉ idsOf nl := fun a ha hal =>
        hdisj a hal ha
      have hRne : ∀ a ∈ idsOf nr, a ≠ nid := fun a ha he =>
        hnotin (List.mem_append.mpr (Or.inr (he ▸ ha)))
      have hframeR : ∀ (p2 : List String) (pid2 : Option String)
          (st2 : GenState),
          ((processNode nr p2 pid2 st2).2.steps).filter
              (leftOrRightDispatchSel nid (idsOf nl)) =
            st2.steps.filter (leftOrRightDispatchSel nid (idsOf nl)) :=
        processNode_filter_frame _ (fun a => a ∈ idsOf nr)
          (fun i p2 pid2 dp g => by
            simp [leftOrRightDispatchSel, isRightDispatchFor])
          (fun i n2 v2 cp dp g h => by
            simp [leftOrRightDispatchSel, isRightDispatchFor,
              contains_false (hRnl n2 h), hRnl n2 h])
          (fun i n2 v2 c cp dp g h => by
            simp [leftOrRightDispatchSel, isRightDispatchFor,
              contains_false (hRnl n2 h), hRnl n2 h, hRne n2 h])
          (fun i n2 v2 c ld cp dp g h => by
            simp [leftOrRightDispatchSel, isRightDispatchFor,
              contains_false (hRnl n2 h), hRnl n2 h])
          (fun i n2 v2 c ld cp dp g h => by
            simp [leftOrRightDispatchSel, isRightDispatchFor,
              contains_false (hRnl n2 h), hRnl n2 h, hRne n2 h])
          (fun i n2 v2 c ld rd cp dp g h => by
            simp [leftOrRightDispatchSel, isRightDispatchFor,
              contains_false (hRnl n2 h), hRnl n2 h])
          (fun i n2 ld rd cp dp g h => by
            simp [leftOrRightDispatchSel, isRightDispatchFor,
              contains_false (hRnl n2 h), hRnl n2 h])
          (fun i n2 v2 ld rd od su cp dp g h => by
            simp [leftOrRightDispatchSel, isRightDispatchFor,
              contains_false (hRnl n2 h), hRnl n2 h])
          (fun i n2 ld rd cp dp g h => by
            simp [leftOrRightDispatchSel, isRightDispatchFor,
              contains_false (hRnl n2 h), hRnl n2 h])
          (fun i n2 v2 ld rd pid2 cp dp g h => by
            simp [leftOrRightDispatchSel, isRightDispatchFor,
              contains_false (hRnl n2 h), hRnl n2 h])
          nr (fun a ha => ha)
      have hmarksL : ∀ (p2 : List String) (pid2 : Option String)
          (st2 : GenState),
          (∀ a ∈ st2.steps,
            leftOrRightDispatchSel nid (idsOf nl) a = true →
            isRightDispatchFor nid a = false) →
          ∀ a ∈ (processNode nl p2 pid2 st2).2.steps,
            leftOrRightDispatchSel nid (idsOf nl) a = true →
            isRightDispatchFor nid a = false :=
        processNode_marks_inv _ _ (fun a => a ∈ idsOf nl)
          (fun i p2 pid2 dp g _ => by simp [isRightDispatchFor])
          (fun i n2 v2 cp dp g h _ => by simp [isRightDispatchFor])
          (fun i n2 v2 c cp dp g h _ => by simp [isRightDispatchFor])
          (fun i n2 v2 c ld cp dp g h _ => by simp [isRightDispatchFor])
          (fun i n2 v2 c ld cp dp g h _ => by
            simp [isRightDispatchFor, hneL2 n2 h])
          (fun i n2 v2 c ld rd cp dp g h _ => by
            simp [isRightDispatchFor])
          (fun i n2 ld rd cp dp g h _ => by simp [isRightDispatchFor])
          (fun i n2 v2 ld rd od su cp dp g h _ => by
            simp [isRightDispatchFor])
          (fun i n2 ld rd cp dp g h _ => by simp [isRightDispatchFor])
          (fun i n2 v2 ld rd pid2 cp dp g h _ => by
            simp [isRightDispatchFor])
          nl (fun a ha => ha)
      simp only [processNode, pushStep_steps, pushStep_stepIndex,
        pushStep_globalDiameter, pushStep_diameterPath, GenState_mk_steps,
        GenState_mk_stepIndex, GenState_mk_globalDiameter,
        GenState_mk_diameterPath, steps_ite, stepIndex_ite, ite_self,
        List.filter_append, List.filter_singleton, List.map_append,
        hframeR, hstF]
      simp only [leftOrRightDispatchSel, isRightDispatchFor,
        contains_false hnl, enterStep_currentNodeId,
        enterStep_animationType, leftDispatchStep_currentNodeId,
        leftDispatchStep_animationType, leftDispatchStep_description,
        leftReturnStep_currentNodeId, leftReturnStep_animationType,
        rightDispatchStep_currentNodeId, rightDispatchStep_animationType,
        rightDispatchStep_description, rightReturnStep_currentNodeId,
        rightReturnStep_animationType, sumCompareStep_currentNodeId,
        sumCompareStep_animationType, updateDiameterStep_currentNodeId,
        updateDiameterStep_animationType, depthCompareStep_currentNodeId,
        depthCompareStep_animationType, exitStep_currentNodeId,
        exitStep_animationType, ldesc_ne_rdesc, beq_self_eq_true,
        Bool.false_or, Bool.and_false, Bool.false_and, Bool.and_true,
        Bool.true_and, Bool.and_self, Bool.or_false, Bool.or_self,
        if_true, if_false, cond_true, cond_false, List.map_append,
        List.nil_append, List.append_nil, List.map_nil, List.map_cons]
      refine exists_replicate_concat (fun a ha => ?_)
      rcases List.mem_map.mp ha with ⟨b, hb, rfl⟩
      have hbm := List.mem_filter.mp hb
      refine hmarksL _ _ _ ?_ b hbm.1 hbm.2
      intro a2 ha2 hsel2
      simp only [pushStep_steps] at ha2
      rcases List.mem_append.mp ha2 with h0 | h0
      · rcases List.mem_append.mp h0 with h1 | h1
        · exact absurd hsel2 (List.filter_eq_nil_iff.mp hstF a2 h1)
        · rw [List.mem_singleton.mp h1]
          simp [isRightDispatchFor]
      · rw [List.mem_singleton.mp h0]
        simp [isRightDispatchFor]
    | inLeft _ _ _ _ _ _ _ _ _ _ hs =>
      have hsub := SubtreeOcc.ids_subset hs
      have hnidtl : nid ∈ idsOf tl := hsub nid (by simp [idsOf])
      have hlidstl : ∀ a ∈ idsOf nl, a ∈ idsOf tl := fun a ha =>
        hsub a (by simp [idsOf, ha])
      have htidne : tid ≠ nid := fun he =>
        hnotin (List.mem_append.mpr (Or.inl (he ▸ hnidtl)))
      have htidnl : tid ∉ idsOf nl := fun h =>
        hnotin (List.mem_append.mpr (Or.inl (hlidstl tid h)))
      have hRnl : ∀ a ∈ idsOf tr, a ∉ idsOf nl := fun a ha hal =>
        hdisj a (hlidstl a hal) ha
      have hRne : ∀ a ∈ idsOf tr, a ≠ nid := fun a ha he =>
        hdisj nid hnidtl (he ▸ ha)
      have hframeR : ∀ (p2 : List String) (pid2 : Option String)
          (st2 : GenState),
          ((processNode tr p2 pid2 st2).2.steps).filter
              (leftOrRightDispatchSel nid (idsOf nl)) =
            st2.steps.filter (leftOrRightDispatchSel nid (idsOf nl)) :=
        processNode_filter_frame _ (fun a => a ∈ idsOf tr)
          (fun i p2 pid2 dp g => by
            simp [leftOrRightDispatchSel, isRightDispatchFor])
          (fun i n2 v2 cp dp g h => by
            simp [leftOrRightDispatchSel, isRightDispatchFor,
              contains_false (hRnl n2 h), hRnl n2 h])
          (fun i n2 v2 c cp dp g h => by
            simp [leftOrRightDispatchSel, isRightDispatchFor,
              contains_false (hRnl n2 h), hRnl n2 h, hRne n2 h])
          (fun i n2 v2 c ld cp dp g h => by
            simp [leftOrRightDispatchSel, isRightDispatchFor,
              contains_false (hRnl n2 h), hRnl n2 h])
          (fun i n2 v2 c ld cp dp g h => by
            simp [leftOrRightDispatchSel, isRightDispatchFor,
              contains_false (hRnl n2 h), hRnl n2 h, hRne n2 h])
          (fun i n2 v2 c ld rd cp dp g h => by
            simp [leftOrRightDispatchSel, isRightDispatchFor,
              contains_false (hRnl n2 h), hRnl n2 h])
          (fun i n2 ld rd cp dp g h => by
            simp [leftOrRightDispatchSel, isRightDispatchFor,
              contains_false (hRnl n2 h), hRnl n2 h])
          (fun i n2 v2 ld rd od su cp dp g h => by
            simp [leftOrRightDispatchSel, isRightDispatchFor,
              contains_false (hRnl n2 h), hRnl n2 h])
          (fun i n2 ld rd cp dp g h => by
            simp [leftOrRightDispatchSel, isRightDispatchFor,
              contains_false (hRnl n2 h), hRnl n2 h])
          (fun i n2 v2 ld rd pid2 cp dp g h => by
            simp [leftOrRightDispatchSel, isRightDispatchFor,
              contains_false (hRnl n2 h), hRnl n2 h])
          tr (fun a ha => ha)
      have hbeq : (tid == nid) = false := by simp [htidne]
      simp only [processNode, pushStep_steps, pushStep_stepIndex,
        pushStep_globalDiameter, pushStep_diameterPath, GenState_mk_steps,
        GenState_mk_stepIndex, GenState_mk_globalDiameter,
        GenState_mk_diameterPath, steps_ite, stepIndex_ite, ite_self,
        List.filter_append, List.filter_singleton, List.map_append,
        hframeR, hstF]
      simp only [leftOrRightDispatchSel, isRightDispatchFor,
        contains_false htidnl, enterStep_currentNodeId,
        enterStep_animationType, leftDispatchStep_currentNodeId,
        leftDispatchStep_animationType, leftDispatchStep_description,
        leftReturnStep_currentNodeId, leftReturnStep_animationType,
        rightDispatchStep_currentNodeId, rightDispatchStep_animationType,
        rightDispatchStep_description, rightReturnStep_currentNodeId,
        rightReturnStep_animationType, sumCompareStep_currentNodeId,
        sumCompareStep_animationType, updateDiameterStep_currentNodeId,
        updateDiameterStep_animationType, depthCompareStep_currentNodeId,
        depthCompareStep_animationType, exitStep_currentNodeId,
        exitStep_animationType, ldesc_ne_rdesc, beq_self_eq_true,
        Bool.false_or, Bool.and_false, Bool.false_and, Bool.and_true,
        Bool.true_and, Bool.and_self, Bool.or_false, Bool.or_self,
        cond_true, cond_false, List.map_append, List.nil_append,
        List.append_nil, List.map_nil, List.map_cons, some_beq_some,
        none_beq_some, hbeq]
      exact ihl hs hndtl _ _ _ (by
        simp only [pushStep_steps, List.filter_append,
          List.filter_singleton, hstF]
        simp [leftOrRightDispatchSel, isRightDispatchFor,
          contains_false htidnl, htidnl, htidne])
    | inRight _ _ _ _ _ _ _ _ _ _ hs =>
      have hsub := SubtreeOcc.ids_subset hs
      have hnidtr : nid ∈ idsOf tr := hsub nid (by simp [idsOf])
      have hlidstr : ∀ a ∈ idsOf nl, a ∈ idsOf tr := fun a ha =>
        hsub a (by simp [idsOf, ha])
      have htidne : tid ≠ nid := fun he =>
        hnotin (List.mem_append.mpr (Or.inr (he ▸ hnidtr)))
      have htidnl : tid ∉ idsOf nl := fun h =>
        hnotin (List.mem_append.mpr (Or.inr (hlidstr tid h)))
      have hLnl : ∀ a ∈ idsOf tl, a ∉ idsOf nl := fun a ha hal =>
        hdisj a ha (hlidstr a hal)
      have hLne : ∀ a ∈ idsOf tl, a ≠ nid := fun a ha he =>
        hdisj a ha (he ▸ hnidtr)
      have hframeL : ∀ (p2 : List String) (pid2 : Option String)
          (st2 : GenState),
          ((processNode tl p2 pid2 st2).2.steps).filter
              (leftOrRightDispatchSel nid (idsOf nl)) =
            st2.steps.filter (leftOrRightDispatchSel nid (idsOf nl)) :=
        processNode_filter_frame _ (fun a => a ∈ idsOf tl)
          (fun i p2 pid2 dp g => by
            simp [leftOrRightDispatchSel, isRightDispatchFor])
          (fun i n2 v2 cp dp g h => by
            simp [leftOrRightDispatchSel, isRightDispatchFor,
              contains_false (hLnl n2 h), hLnl n2 h])
          (fun i n2 v2 c cp dp g h => by
            simp [leftOrRightDispatchSel, isRightDispatchFor,
              contains_false (hLnl n2 h), hLnl n2 h, hLne n2 h])
          (fun i n2 v2 c ld cp dp g h => by
            simp [leftOrRightDispatchSel, isRightDispatchFor,
              contains_false (hLnl n2 h), hLnl n2 h])
          (fun i n2 v2 c ld cp dp g h => by
            simp [leftOrRightDispatchSel, isRightDispatchFor,
              contains_false (hLnl n2 h), hLnl n2 h, hLne n2 h])
          (fun i n2 v2 c ld rd cp dp g h => by
            simp [leftOrRightDispatchSel, isRightDispatchFor,
              contains_false (hLnl n2 h), hLnl n2 h])
          (fun i n2 ld rd cp dp g h => by
            simp [leftOrRightDispatchSel, isRightDispatchFor,
              contains_false (hLnl n2 h), hLnl n2 h])
          (fun i n2 v2 ld rd od su cp dp g h => by
            simp [leftOrRightDispatchSel, isRightDispatchFor,
              contains_false (hLnl n2 h), hLnl n2 h])
          (fun i n2 ld rd cp dp g h => by
            simp [leftOrRightDispatchSel, isRightDispatchFor,
              contains_false (hLnl n2 h), hLnl n2 h])
          (fun i n2 v2 ld rd pid2 cp dp g h => by
            simp [leftOrRightDispatchSel, isRightDispatchFor,
              contains_false (hLnl n2 h), hLnl n2 h])
          tl (fun a ha => ha)
      have hbeq : (tid == nid) = false := by simp [htidne]
      simp only [processNode, pushStep_steps, pushStep_stepIndex,
        pushStep_globalDiameter, pushStep_diameterPath, GenState_mk_steps,
        GenState_mk_stepIndex, GenState_mk_globalDiameter,
        GenState_mk_diameterPath, steps_ite, stepIndex_ite, ite_self,
        List.filter_append, List.filter_singleton, List.map_append,
        hframeL, hstF]
      simp only [leftOrRightDispatchSel, isRightDispatchFor,
        contains_false htidnl, enterStep_currentNodeId,
        enterStep_animationType, leftDispatchStep_currentNodeId,
        leftDispatchStep_animationType, leftDispatchStep_description,
        leftReturnStep_currentNodeId, leftReturnStep_animationType,
        rightDispatchStep_currentNodeId, rightDispatchStep_animationType,
        rightDispatchStep_description, rightReturnStep_currentNodeId,
        rightReturnStep_animationType, sumCompareStep_currentNodeId,
        sumCompareStep_animationType, updateDiameterStep_currentNodeId,
        updateDiameterStep_animationType, depthCompareStep_currentNodeId,
        depthCompareStep_animationType, exitStep_currentNodeId,
        exitStep_animationType, ldesc_ne_rdesc, beq_self_eq_true,
        Bool.false_or, Bool.and_false, Bool.false_and, Bool.and_true,
        Bool.true_and, Bool.and_self, Bool.or_false, Bool.or_self,
        cond_true, cond_false, List.map_append, List.nil_append,
        List.append_nil, List.map_nil, List.map_cons, some_beq_some,
        none_beq_some, hbeq]
      exact ihr hs hndtr _ _ _ (by
        simp only [pushStep_steps, List.filter_append,
          List.filter_singleton, hframeL, hstF]
        simp [leftOrRightDispatchSel, isRightDispatchFor,
          contains_false htidnl, htidnl, htidne, hbeq])

/-- For any node `lid` of the left subtree of a node occurring in the
processed subtree, the steps selected as either enter/exit of `lid` or
the right-dispatch of the occurring node appear in the order: enter of
`lid`, exit of `lid`, then the right-dispatch — so the whole span of the
left-subtree node precedes the right dispatch. -/
theorem processNode_filter_lid_rd (nid : String) (nval : Option Int)
    (nx ny : Int) (nl nr : D3TreeNode) (nd : Nat) (nhb nhp nhn : Bool)
    (lid : String) (hlid : lid ∈ idsOf nl) :
    ∀ (t : D3TreeNode),
      SubtreeOcc (.node nid nval nx ny nl nr nd nhb nhp nhn) t →
      (idsOf t).Nodup →
      ∀ (p : List String) (pid : Option String) (st : GenState),
        (((processNode t p pid st).2.steps).filter
            (fun s => isEnterExitFor lid s ||
              isRightDispatchFor nid s)).map AlgorithmStep.animationType =
          ((st.steps.filter (fun s => isEnterExitFor lid s ||
              isRightDispatchFor nid s)).map
            AlgorithmStep.animationType) ++
          [.recursionEnter, .recursionExit, .paramPass] := by
  intro t
  induction t with
  | nil => intro hocc; cases hocc
  | node tid tv tx ty tl tr td thb thp thn ihl ihr =>
    intro hocc hnd p pid st
    rw [idsOf_node] at hnd
    have hnotin := (List.nodup_cons.mp hnd).1
    have hnd2 := (List.nodup_cons.mp hnd).2
    have hndtl : (idsOf tl).Nodup := (List.nodup_append.mp hnd2).1
    have hndtr : (idsOf tr).Nodup := (List.nodup_append.mp hnd2).2.1
    have hdisj : ∀ a ∈ idsOf tl, a ∉ idsOf tr :=
      fun a ha har => (List.nodup_append.mp hnd2).2.2 ha har
    cases hocc with
    | refl =>
      have hnl : nid ∉ idsOf nl := fun h =>
        hnotin (List.mem_append.mpr (Or.inl h))
      have hlidne : nid ≠ lid := fun he => hnl (he ▸ hlid)
      have hneNl : ∀ a ∈ idsOf nl, a ≠ nid := fun a ha he =>
        hnl (he ▸ ha)
      have hRlid : ∀ a ∈ idsOf nr, a ≠ lid := fun a ha he =>
        hdisj lid hlid (he ▸ ha)
      have hRne : ∀ a ∈ idsOf nr, a ≠ nid := fun a ha he =>
        hnotin (List.mem_append.mpr (Or.inr (he ▸ ha)))
      have henex := processNode_filter_enter_exit
        (fun s => isEnterExitFor lid s || isRightDispatchFor nid s)
        (fun a => a ∈ idsOf nl) lid
        (fun i p2 pid2 dp g => by
          simp [isEnterExitFor, isRightDispatchFor])
        (fun i v2 cp dp g => by simp [isEnterExitFor])
        (fun i v2 ld rd pid2 cp dp g => by simp [isEnterExitFor])
        (fun i n2 v2 cp dp g h h2 => by
          simp [isEnterExitFor, isRightDispatchFor, h2])
        (fun i n2 v2 ld rd pid2 cp dp g h h2 => by
          simp [isEnterExitFor, isRightDispatchFor, h2])
        (fun i n2 v2 c cp dp g h => by
          simp [isEnterExitFor, isRightDispatchFor])
        (fun i n2 v2 c ld cp dp g h => by
          simp [isEnterExitFor, isRightDispatchFor])
        (fun i n2 v2 c ld cp dp g h => by
          simp [isEnterExitFor, isRightDispatchFor, hneNl n2 h])
        (fun i n2 v2 c ld rd cp dp g h => by
          simp [isEnterExitFor, isRightDispatchFor])
        (fun i n2 ld rd cp dp g h => by
          simp [isEnterExitFor, isRightDispatchFor])
        (fun i n2 v2 ld rd od su cp dp g h => by
          simp [isEnterExitFor, isRightDispatchFor])
        (fun i n2 ld rd cp dp g h => by
          simp [isEnterExitFor, isRightDispatchFor])
        nl (fun a ha => ha) (by
          have := (List.nodup_append.mp hnd2).1
          exact this) hlid
      have hframeR : ∀ (p2 : List String) (pid2 : Option String)
          (st2 : GenState),
          ((processNode nr p2 pid2 st2).2.steps).filter
              (fun s => isEnterExitFor lid s ||
                isRightDispatchFor nid s) =
            st2.steps.filter (fun s => isEnterExitFor lid s ||
              isRightDispatchFor nid s) :=
        processNode_filter_frame _ (fun a => a ∈ idsOf nr)
          (fun i p2 pid2 dp g => by
            simp [isEnterExitFor, isRightDispatchFor])
          (fun i n2 v2 cp dp g h => by
            simp [isEnterExitFor, isRightDispatchFor, hRlid n2 h])
          (fun i n2 v2 c cp dp g h => by
            simp [isEnterExitFor, isRightDispatchFor])
          (fun i n2 v2 c ld cp dp g h => by
            simp [isEnterExitFor, isRightDispatchFor])
          (fun i n2 v2 c ld cp dp g h => by
            simp [isEnterExitFor, isRightDispatchFor, hRne n2 h])
          (fun i n2 v2 c ld rd cp dp g h => by
            simp [isEnterExitFor, isRightDispatchFor])
          (fun i n2 ld rd cp dp g h => by
            simp [isEnterExitFor, isRightDispatchFor])
          (fun i n2 v2 ld rd od su cp dp g h => by
            simp [isEnterExitFor, isRightDispatchFor])
          (fun i n2 ld rd cp dp g h => by
            simp [isEnterExitFor, isRightDispatchFor])
          (fun i n2 v2 ld rd pid2 cp dp g h => by
            simp [isEnterExitFor, isRightDispatchFor, hRlid n2 h])
          nr (fun a ha => ha)
      simp only [processNode, pushStep_steps, pushStep_stepIndex,
        pushStep_globalDiameter, pushStep_diameterPath, GenState_mk_steps,
        GenState_mk_stepIndex, GenState_mk_globalDiameter,
        GenState_mk_diameterPath, steps_ite, stepIndex_ite, ite_self,
        List.filter_append, List.filter_singleton, List.map_append,
        henex, hframeR]
      have hbeq1 : (nid == lid) = false := by simp [hlidne]
      simp [isEnterExitFor, isRightDispatchFor, hlidne, hbeq1]
    | inLeft _ _ _ _ _ _ _ _ _ _ hs =>
      have hsub := SubtreeOcc.ids_subset hs
      have hnidtl : nid ∈ idsOf tl := hsub nid (by simp [idsOf])
      have hlidtl : lid ∈ idsOf tl := hsub lid (by simp [idsOf, hlid])
      have htidnenid : tid ≠ nid := fun he =>
        hnotin (List.mem_append.mpr (Or.inl (he ▸ hnidtl)))
      have htidnelid : tid ≠ lid := fun he =>
        hnotin (List.mem_append.mpr (Or.inl (he ▸ hlidtl)))
      have hRlid : ∀ a ∈ idsOf tr, a ≠ lid := fun a ha he =>
        hdisj lid hlidtl (he ▸ ha)
      have hRne : ∀ a ∈ idsOf tr, a ≠ nid := fun a ha he =>
        hdisj nid hnidtl (he ▸ ha)
      have hframeR : ∀ (p2 : List String) (pid2 : Option String)
          (st2 : GenState),
          ((processNode tr p2 pid2 st2).2.steps).filter
              (fun s => isEnterExitFor lid s ||
                isRightDispatchFor nid s) =
            st2.steps.filter (fun s => isEnterExitFor lid s ||
              isRightDispatchFor nid s) :=
        processNode_filter_frame _ (fun a => a ∈ idsOf tr)
          (fun i p2 pid2 dp g => by
            simp [isEnterExitFor, isRightDispatchFor])
          (fun i n2 v2 cp dp g h => by
            simp [isEnterExitFor, isRightDispatchFor, hRlid n2 h])
          (fun i n2 v2 c cp dp g h => by
            simp [isEnterExitFor, isRightDispatchFor])
          (fun i n2 v2 c ld cp dp g h => by
            simp [isEnterExitFor, isRightDispatchFor])
          (fun i n2 v2 c ld cp dp g h => by
            simp [isEnterExitFor, isRightDispatchFor, hRne n2 h])
          (fun i n2 v2 c ld rd cp dp g h => by
            simp [isEnterExitFor, isRightDispatchFor])
          (fun i n2 ld rd cp dp g h => by
            simp [isEnterExitFor, isRightDispatchFor])
          (fun i n2 v2 ld rd od su cp dp g h => by
            simp [isEnterExitFor, isRightDispatchFor])
          (fun i n2 ld rd cp dp g h => by
            simp [isEnterExitFor, isRightDispatchFor])
          (fun i n2 v2 ld rd pid2 cp dp g h => by
            simp [isEnterExitFor, isRightDispatchFor, hRlid n2 h])
          tr (fun a ha => ha)
      simp only [processNode, pushStep_steps, pushStep_stepIndex,
        pushStep_globalDiameter, pushStep_diameterPath, GenState_mk_steps,
        GenState_mk_stepIndex, GenState_mk_globalDiameter,
        GenState_mk_diameterPath, steps_ite, stepIndex_ite, ite_self,
        List.filter_append, List.filter_singleton, List.map_append,
        ihl hs hndtl, hframeR]
      have hbeq1 : (tid == lid) = false := by simp [htidnelid]
      have hbeq2 : (tid == nid) = false := by simp [htidnenid]
      simp [isEnterExitFor, isRightDispatchFor, htidnenid, htidnelid,
        hbeq1, hbeq2]
    | inRight _ _ _ _ _ _ _ _ _ _ hs =>
      have hsub := SubtreeOcc.ids_subset hs
      have hnidtr : nid ∈ idsOf tr := hsub nid (by simp [idsOf])
      have hlidtr : lid ∈ idsOf tr := hsub lid (by simp [idsOf, hlid])
      have htidnenid : tid ≠ nid := fun he =>
        hnotin (List.mem_append.mpr (Or.inr (he ▸ hnidtr)))
      have htidnelid : tid ≠ lid := fun he =>
        hnotin (List.mem_append.mpr (Or.inr (he ▸ hlidtr)))
      have hLlid : ∀ a ∈ idsOf tl, a ≠ lid := fun a ha he =>
        hdisj a ha (he ▸ hlidtr)
      have hLne : ∀ a ∈ idsOf tl, a ≠ nid := fun a ha he =>
        hdisj a ha (he ▸ hnidtr)
      have hframeL : ∀ (p2 : List String) (pid2 : Option String)
          (st2 : GenState),
          ((processNode tl p2 pid2 st2).2.steps).filter
              (fun s => isEnterExitFor lid s ||
                isRightDispatchFor nid s) =
            st2.steps.filter (fun s => isEnterExitFor lid s ||
              isRightDispatchFor nid s) :=
        processNode_filter_frame _ (fun a => a ∈ idsOf tl)
          (fun i p2 pid2 dp g => by
            simp [isEnterExitFor, isRightDispatchFor])
          (fun i n2 v2 cp dp g h => by
            simp [isEnterExitFor, isRightDispatchFor, hLlid n2 h])
          (fun i n2 v2 c cp dp g h => by
            simp [isEnterExitFor, isRightDispatchFor])
          (fun i n2 v2 c ld cp dp g h => by
            simp [isEnterExitFor, isRightDispatchFor])
          (fun i n2 v2 c ld cp dp g h => by
            simp [isEnterExitFor, isRightDispatchFor, hLne n2 h])
          (fun i n2 v2 c ld rd cp dp g h => by
            simp [isEnterExitFor, isRightDispatchFor])
          (fun i n2 ld rd cp dp g h => by
            simp [isEnterExitFor, isRightDispatchFor])
          (fun i n2 v2 ld rd od su cp dp g h => by
            simp [isEnterExitFor, isRightDispatchFor])
          (fun i n2 ld rd cp dp g h => by
            simp [isEnterExitFor, isRightDispatchFor])
          (fun i n2 v2 ld rd pid2 cp dp g h => by
            simp [isEnterExitFor, isRightDispatchFor, hLlid n2 h])
          tl (fun a ha => ha)
      simp only [processNode, pushStep_steps, pushStep_stepIndex,
        pushStep_globalDiameter, pushStep_diameterPath, GenState_mk_steps,
        GenState_mk_stepIndex, GenState_mk_globalDiameter,
        GenState_mk_diameterPath, steps_ite, stepIndex_ite, ite_self,
        List.filter_append, List.filter_singleton, List.map_append,
        ihr hs hndtr, hframeL]
      have hbeq1 : (tid == lid) = false := by simp [htidnelid]
      have hbeq2 : (tid == nid) = false := by simp [htidnenid]
      simp [isEnterExitFor, isRightDispatchFor, htidnenid, htidnelid,
        hbeq1, hbeq2]

/-- C4: for every decorated tree with unique node ids and every node
occurring in it, the step sequence of `generateAlgorithmSteps` satisfies
the per-node ordering invariants: (1) the node's bookkeeping steps appear
in the order sum-compare, diameter-update, depth-compare, recursion-exit
— so the sum-vs-best compare precedes the update and the depth compare
precedes the exit; (2) every step attributed to a node of the left
subtree precedes the node's right-dispatch (param-pass) step; (3) for
each left-subtree node, its recursion-enter and recursion-exit both
precede the right-dispatch step. -/
theorem c4_per_node_ordering (t : D3TreeNode) (nid : String)
    (nval : Option Int) (nx ny : Int) (nl nr : D3TreeNode) (nd : Nat)
    (nhb nhp nhn : Bool)
    (hocc : SubtreeOcc (.node nid nval nx ny nl nr nd nhb nhp nhn) t)
    (hnd : (idsOf t).Nodup) :
    ((((generateAlgorithmSteps t).filter (isSummaryFor nid)).map
        AlgorithmStep.animationType) =
      [.compare, .updateDiameter, .compare, .recursionExit]) ∧
    (∃ k, (((generateAlgorithmSteps t).filter
        (leftOrRightDispatchSel nid (idsOf nl))).map
        (isRightDispatchFor nid)) = List.replicate k false ++ [true]) ∧
    (∀ lid ∈ idsOf nl,
      (((generateAlgorithmSteps t).filter (fun s =>
          isEnterExitFor lid s || isRightDispatchFor nid s)).map
        AlgorithmStep.animationType) =
      [.recursionEnter, .recursionExit, .paramPass]) := by
  cases t with
  | nil => cases hocc
  | node rid rv rx ry rl rr rd2 rhb rhp rhn =>
    have hmem : nid ∈ idsOf (.node rid rv rx ry rl rr rd2 rhb rhp rhn) :=
      SubtreeOcc.ids_subset hocc nid (by simp [idsOf])
    have hndc : (rid :: (idsOf rl ++ idsOf rr)).Nodup := by
      rw [idsOf_node] at hnd
      exact hnd
    have hnotin := (List.nodup_cons.mp hndc).1
    have hrid : rid ∉ idsOf nl := by
      cases hocc with
      | refl => exact fun h => hnotin (List.mem_append.mpr (Or.inl h))
      | inLeft _ _ _ _ _ _ _ _ _ _ hs =>
        exact fun h => hnotin (List.mem_append.mpr (Or.inl
          (SubtreeOcc.ids_subset hs rid (by simp [idsOf, h]))))
      | inRight _ _ _ _ _ _ _ _ _ _ hs =>
        exact fun h => hnotin (List.mem_append.mpr (Or.inr
          (SubtreeOcc.ids_subset hs rid (by simp [idsOf, h]))))
    refine ⟨?_, ?_, ?_⟩
    · have hsum := processNode_filter_summary (isSummaryFor nid)
        (fun _ => True) nid
        (fun i p2 pid2 dp g => by simp [isSummaryFor])
        (fun i ld rd cp dp g => by simp [isSummaryFor])
        (fun i v2 ld rd od su cp dp g => by simp [isSummaryFor])
        (fun i ld rd cp dp g => by simp [isSummaryFor])
        (fun i v2 ld rd pid2 cp dp g => by simp [isSummaryFor])
        (fun i n2 ld rd cp dp g h h2 => by simp [isSummaryFor, h2])
        (fun i n2 v2 ld rd od su cp dp g h h2 => by
          simp [isSummaryFor, h2])
        (fun i n2 ld rd cp dp g h h2 => by simp [isSummaryFor, h2])
        (fun i n2 v2 ld rd pid2 cp dp g h h2 => by
          simp [isSummaryFor, h2])
        (fun i n2 v2 cp dp g h => by simp [isSummaryFor])
        (fun i n2 v2 c cp dp g h => by simp [isSummaryFor])
        (fun i n2 v2 c ld cp dp g h => by simp [isSummaryFor])
        (fun i n2 v2 c ld cp dp g h => by simp [isSummaryFor])
        (fun i n2 v2 c ld rd cp dp g h => by simp [isSummaryFor])
        (.node rid rv rx ry rl rr rd2 rhb rhp rhn)
        (fun _ _ => trivial) hnd hmem
      simp only [generateAlgorithmSteps, pushStep_steps, pushStep_stepIndex,
        pushStep_globalDiameter, pushStep_diameterPath, List.nil_append,
        List.filter_append, List.filter_singleton, List.map_append, hsum]
      simp [isSummaryFor]
    · have hpa := processNode_filter_pA nid nval nx ny nl nr nd nhb
        nhp nhn (.node rid rv rx ry rl rr rd2 rhb rhp rhn) hocc hnd
      simp only [generateAlgorithmSteps, pushStep_steps, pushStep_stepIndex,
        pushStep_globalDiameter, pushStep_diameterPath, List.nil_append,
        List.filter_append, List.filter_singleton, List.map_append]
      simp only [leftOrRightDispatchSel, isRightDispatchFor,
        finalStep_currentNodeId, finalStep_animationType, cond_false,
        Bool.or_self, Bool.false_or, Bool.and_false, Bool.false_and,
        List.append_nil, List.map_nil]
      refine hpa _ _ _ ?_
      simp only [pushStep_steps, GenState_mk_steps, List.nil_append,
        List.filter_append, List.filter_singleton]
      simp [leftOrRightDispatchSel, isRightDispatchFor,
        contains_false hrid, hrid]
    · intro lid hlid
      have h3 := processNode_filter_lid_rd nid nval nx ny nl nr nd nhb
        nhp nhn lid hlid (.node rid rv rx ry rl rr rd2 rhb rhp rhn)
        hocc hnd
      simp only [generateAlgorithmSteps, pushStep_steps, pushStep_stepIndex,
        pushStep_globalDiameter, pushStep_diameterPath, List.nil_append,
        List.filter_append, List.filter_singleton, List.map_append, h3]
      simp [isEnterExitFor, isRightDispatchFor]

/-- C4 witness: the ordering invariants instantiated at the root of the
decorated tree of `[1, 2]`. -/
theorem c4_witness :
    ((((generateAlgorithmSteps (D3TreeNode.node "0" (some 1) 0 0
        (.node "0-L" (some 2) 0 0 .nil .nil 1 false false false)
        (.node "0-R" Option.none 0 0 .nil .nil 1 false false true)
        0 false false false)).filter (isSummaryFor "0")).map
        AlgorithmStep.animationType) =
      [.compare, .updateDiameter, .compare, .recursionExit]) ∧
    (∃ k, (((generateAlgorithmSteps (D3TreeNode.node "0" (some 1) 0 0
        (.node "0-L" (some 2) 0 0 .nil .nil 1 false false false)
        (.node "0-R" Option.none 0 0 .nil .nil 1 false false true)
        0 false false false)).filter
        (leftOrRightDispatchSel "0"
          (idsOf (.node "0-L" (some 2) 0 0 .nil .nil 1 false false
            false)))).map
        (isRightDispatchFor "0")) = List.replicate k false ++ [true]) ∧
    (∀ lid ∈ idsOf (D3TreeNode.node "0-L" (some 2) 0 0 .nil .nil 1 false
        false false),
      (((generateAlgorithmSteps (D3TreeNode.node "0" (some 1) 0 0
          (.node "0-L" (some 2) 0 0 .nil .nil 1 false false false)
          (.node "0-R" Option.none 0 0 .nil .nil 1 false false true)
          0 false false false)).filter (fun s =>
          isEnterExitFor lid s || isRightDispatchFor "0" s)).map
        AlgorithmStep.animationType) =
      [.recursionEnter, .recursionExit, .paramPass]) :=
  c4_per_node_ordering _ "0" (some 1) 0 0 _ _ 0 false false false
    (SubtreeOcc.refl _) (by decide)

/-! ### C6: the index formula holds when the array has no nulls -/

/-- Once the read position is past the end of the array, every queued
value becomes a leaf. -/
theorem buildQueue_drain (arr : List (Option Int)) (i : Nat)
    (h : arr.length ≤ i) :
    ∀ (q : List Int), buildQueue arr i q =
      q.map (fun v => TreeNode.node v .nil .nil) := by
  intro q
  induction q with
  | nil => simp [buildQueue]
  | cons v rest ih =>
    simp only [buildQueue]
    rw [dif_neg (by omega)]
    rw [ih]
    rfl

/-- Out-of-range positions give the absent tree in the index model. -/
theorem buildTreeByIndexAux_nil (arr : List (Option Int)) (p : Nat)
    (h : arr.length ≤ p) : buildTreeByIndexAux arr p = .nil := by
  rw [buildTreeByIndexAux]
  rw [dif_neg (by omega)]

/-- In a null-free array every in-range entry is the `some` of its
default-extracted value. -/
theorem getElem_eq_some_of_no_null (arr : List (Option Int))
    (hnn : ∀ x ∈ arr, x ≠ Option.none) (p : Nat) (h : p < arr.length) :
    arr[p] = some ((arr.getD p Option.none).getD 0) := by
  obtain ⟨a, ha⟩ : ∃ a, arr[p] = some a := by
    cases he : arr[p] with
    | none => exact absurd he (hnn _ (List.getElem_mem h))
    | some a => exact ⟨a, rfl⟩
  rw [List.getD_eq_getElem arr Option.none h, ha]
  rfl

/-- In a null-free array, a node whose children positions fall outside
the array is a leaf in the index model. -/
theorem buildTreeByIndexAux_leaf (arr : List (Option Int))
    (hnn : ∀ x ∈ arr, x ≠ Option.none) (p : Nat) (h : p < arr.length)
    (h2 : arr.length ≤ 2 * p + 1) :
    buildTreeByIndexAux arr p =
      .node ((arr.getD p Option.none).getD 0) .nil .nil := by
  rw [buildTreeByIndexAux]
  rw [dif_pos h]
  rw [getElem_eq_some_of_no_null arr hnn p h]
  rw [buildTreeByIndexAux_nil arr (2 * p + 1) (by omega),
    buildTreeByIndexAux_nil arr (2 * p + 2) (by omega)]

/-- Splitting a range. -/
theorem range'_split (s a b : Nat) :
    List.range' s (a + b) = List.range' s a ++ List.range' (s + a) b := by
  have h := List.range'_append s a b 1
  rw [one_mul] at h
  rw [Nat.add_comm a b]
  exact h.symm

/-- The queue correspondence: in a null-free array, when the read position
is `2j+1` and the queue holds the values of positions `j` up to
`min n (2j+1)`, the constructed trees are exactly the index-model trees of
those positions. -/
theorem buildQueue_formula (arr : List (Option Int))
    (hnn : ∀ x ∈ arr, x ≠ Option.none) :
    ∀ (k j : Nat), arr.length - j ≤ k →
      buildQueue arr (2 * j + 1)
          ((List.range' j (min arr.length (2 * j + 1) - j)).map
            (fun p => (arr.getD p Option.none).getD 0)) =
        (List.range' j (min arr.length (2 * j + 1) - j)).map
          (fun p => buildTreeByIndexAux arr p) := by
  intro k
  induction k with
  | zero =>
    intro j hj
    have h0 : min arr.length (2 * j + 1) - j = 0 := by omega
    rw [h0]
    simp [buildQueue]
  | succ k ih =>
    intro j hj
    by_cases hjn : j < arr.length
    · have hroot : buildTreeByIndexAux arr j =
          .node ((arr.getD j Option.none).getD 0)
            (buildTreeByIndexAux arr (2 * j + 1))
            (buildTreeByIndexAux arr (2 * j + 2)) := by
        rw [buildTreeByIndexAux]
        rw [dif_pos hjn]
        rw [getElem_eq_some_of_no_null arr hnn j hjn]
      by_cases hi : 2 * j + 1 < arr.length
      · have hminEq : min arr.length (2 * j + 1) = 2 * j + 1 := by omega
        rw [hminEq]
        have hc : 2 * j + 1 - j = j + 1 := by omega
        rw [hc]
        rw [List.range'_succ j j 1, List.map_cons, List.map_cons]
        simp only [buildQueue]
        rw [dif_pos hi]
        rw [getElem_eq_some_of_no_null arr hnn (2 * j + 1) hi]
        rw [show 2 * j + 1 + 1 = 2 * j + 2 from by omega]
        have hlen : ((List.range' (j + 1) j).map
            (fun p => (arr.getD p Option.none).getD 0)).length = j := by
          simp
        by_cases hr : 2 * j + 2 < arr.length
        · rw [List.getElem?_eq_getElem hr]
          rw [getElem_eq_some_of_no_null arr hnn (2 * j + 2) hr]
          have hjoin : ∀ (x : Option Int),
              (some x).join = x := fun x => rfl
          rw [hjoin]
          simp only []
          have hq : (List.range' (j + 1) j).map
                (fun p => (arr.getD p Option.none).getD 0) ++
              ([(arr.getD (2 * j + 1) Option.none).getD 0] ++
                [(arr.getD (2 * j + 2) Option.none).getD 0]) =
              (List.range' (j + 1) (j + 2)).map
                (fun p => (arr.getD p Option.none).getD 0) := by
            rw [range'_split (j + 1) j 2]
            rw [show j + 1 + j = 2 * j + 1 from by omega]
            rw [show List.range' (2 * j + 1) 2 =
              [2 * j + 1, 2 * j + 2] from rfl]
            simp
          rw [hq]
          have hcnt : j + 2 = min arr.length (2 * (j + 1) + 1) - (j + 1) :=
            by omega
          rw [show 2 * j + 1 + 2 = 2 * (j + 1) + 1 from by omega]
          have ihe := ih (j + 1) (by omega)
          rw [← hcnt] at ihe
          rw [ihe]
          rw [range'_split (j + 1) j 2]
          rw [show j + 1 + j = 2 * j + 1 from by omega]
          rw [show List.range' (2 * j + 1) 2 =
            [2 * j + 1, 2 * j + 2] from rfl]
          rw [List.map_append]
          rw [List.drop_left' (by simp), List.take_left' (by simp)]
          rw [hroot]
          rfl
        · have hn2 : arr.length = 2 * j + 2 := by omega
          rw [List.getElem?_eq_none (by omega)]
          have hjoin0 : (Option.none : Option (Option Int)).join =
            Option.none := rfl
          rw [hjoin0]
          simp only []
          have hq : (List.range' (j + 1) j).map
                (fun p => (arr.getD p Option.none).getD 0) ++
              ([(arr.getD (2 * j + 1) Option.none).getD 0] ++ []) =
              (List.range' (j + 1) (j + 1)).map
                (fun p => (arr.getD p Option.none).getD 0) := by
            rw [range'_split (j + 1) j 1]
            rw [show j + 1 + j = 2 * j + 1 from by omega]
            rw [show List.range' (2 * j + 1) 1 = [2 * j + 1] from rfl]
            simp
          rw [hq]
          have hcnt : j + 1 = min arr.length (2 * (j + 1) + 1) - (j + 1) :=
            by omega
          rw [show 2 * j + 1 + 2 = 2 * (j + 1) + 1 from by omega]
          have ihe := ih (j + 1) (by omega)
          rw [← hcnt] at ihe
          rw [ihe]
          rw [range'_split (j + 1) j 1]
          rw [show j + 1 + j = 2 * j + 1 from by omega]
          rw [show List.range' (2 * j + 1) 1 = [2 * j + 1] from rfl]
          rw [List.map_append]
          rw [List.drop_left' (by simp), List.take_left' (by simp)]
          rw [hroot]
          rw [buildTreeByIndexAux_nil arr (2 * j + 2) (by omega)]
          rfl
      · have hminEq : min arr.length (2 * j + 1) = arr.length := by omega
        rw [hminEq]
        have hc : arr.length - j = (arr.length - j - 1) + 1 := by omega
        rw [hc]
        rw [List.range'_succ j (arr.length - j - 1) 1, List.map_cons,
          List.map_cons]
        simp only [buildQueue]
        rw [dif_neg (by omega)]
        rw [buildQueue_drain arr (2 * j + 1) (by omega)]
        rw [List.map_map]
        rw [buildTreeByIndexAux_leaf arr hnn j hjn (by omega)]
        have hcong : (List.range' (j + 1) (arr.length - j - 1)).map
            ((fun v => TreeNode.node v .nil .nil) ∘
              (fun p => (arr.getD p Option.none).getD 0)) =
            (List.range' (j + 1) (arr.length - j - 1)).map
              (fun p => buildTreeByIndexAux arr p) := by
          refine List.map_congr_left ?_
          intro p hp
          obtain ⟨i2, hi2, hpe⟩ := List.mem_range'.mp hp
          have hp1 : j + 1 ≤ p := by omega
          have hp2 : p < arr.length := by omega
          simp only [Function.comp]
          rw [buildTreeByIndexAux_leaf arr hnn p hp2 (by omega)]
        rw [hcong]
    · have h0 : min arr.length (2 * j + 1) - j = 0 := by omega
      rw [h0]
      simp [buildQueue]

/-- C6 (amended): when every entry of the array is non-null, the
queue-based builder agrees with the index-formula interpretation: the node
at index `i` takes its left child from `2i+1` and its right child from
`2i+2`, stopping when the array is exhausted. -/
theorem c6_amended_index_formula_when_no_null (arr : List (Option Int))
    (hnn : ∀ x ∈ arr, x ≠ Option.none) :
    buildTreeFromArray arr = buildTreeByIndex arr := by
  cases arr with
  | nil =>
    show TreeNode.nil = buildTreeByIndex []
    rw [show buildTreeByIndex [] = buildTreeByIndexAux [] 0 from rfl]
    rw [buildTreeByIndexAux_nil [] 0 (by simp)]
  | cons a rest =>
    cases a with
    | none => exact absurd rfl (hnn _ (by simp))
    | some v =>
      have h := buildQueue_formula (some v :: rest) hnn
        (some v :: rest).length 0 (by omega)
      have hm : min (some v :: rest).length (2 * 0 + 1) - 0 = 1 := by
        simp only [List.length_cons]
        omega
      rw [hm] at h
      rw [show (2 * 0 + 1) = 1 from rfl] at h
      rw [show List.range' 0 1 = [0] from rfl] at h
      simp only [List.map_cons, List.map_nil] at h
      rw [show ((some v :: rest).getD 0 Option.none).getD 0 = v from rfl]
        at h
      show ((buildQueue (some v :: rest) 1 [v]).headD .nil) =
        buildTreeByIndex (some v :: rest)
      rw [h]
      rfl

/-- C6 amended witness: a concrete null-free array where builder and
index formula agree. -/
theorem c6_amended_witness :
    (∀ x ∈ [some (1 : Int), some 2, some 3, some 4, some 5],
      x ≠ Option.none) ∧
    buildTreeFromArray [some (1 : Int), some 2, some 3, some 4, some 5] =
      buildTreeByIndex [some (1 : Int), some 2, some 3, some 4, some 5] :=
  ⟨by decide, c6_amended_index_formula_when_no_null _ (by decide)⟩
